import Mathlib

/-!
# NorConnect — verification of the entity-resolution / graph-assembly core

Shallow embedding of the Python sources of the NorConnect repository
(`src/app/main.py`, `src/scripts/normalize_iati_staging.py`,
`src/scripts/enrich_norad_oecd.py`, `src/scripts/load_palestine_organizations.py`)
together with proofs of the frozen specification claims.

Conventions of the embedding:
* Python strings are Lean `String`s; character-level passes work on `String.data`
  (`List Char`).
* Python `None` becomes `Option.none`; SQL `NULL` likewise.
* Python `float`/`Decimal` arithmetic on the confidence and similarity scores is
  embedded in `ℚ` (all literals involved are exact decimal fractions).
* Database tables are lists of rows; `ON CONFLICT` clauses become explicit
  lookups, matching the conflict target named in the SQL.
* `re` substitutions are implemented as structurally recursive passes with the
  same leftmost, non-overlapping semantics as the regexes in the source.
-/

namespace NorConnect

/-! ## Characters: the fragments of Python `str.lower`, `str.upper`, `str.strip`
and the regex classes that the normalizers use. -/

/-- Python `str.lower` restricted to the Basic-Latin / Latin-1 letters that the
normalizers can meet: `A`–`Z` and the Latin-1 uppercase block (which contains
`Æ`, `Ø`, `Å`) map down by 32; everything else is untouched.  Characters whose
real Python lowercase falls outside the normalizers' keep-classes are replaced
by the character-class substitutions anyway, so this restriction does not
change any normalizer output. -/
def pyLower (c : Char) : Char :=
  if (65 ≤ c.toNat ∧ c.toNat ≤ 90) ∨ (192 ≤ c.toNat ∧ c.toNat ≤ 222 ∧ c.toNat ≠ 215) then
    Char.ofNat (c.toNat + 32)
  else c

/-- Python `str.upper` on the same restricted alphabet (used by `normalize_ref`). -/
def pyUpper (c : Char) : Char :=
  if (97 ≤ c.toNat ∧ c.toNat ≤ 122) ∨ (224 ≤ c.toNat ∧ c.toNat ≤ 254 ∧ c.toNat ≠ 247) then
    Char.ofNat (c.toNat - 32)
  else c

/-- The whitespace class of Python's `str.strip` / `re` `\s` (ASCII part plus
NEL and NBSP). -/
def isPyWs (c : Char) : Bool :=
  c.toNat = 32 ∨ c.toNat = 9 ∨ c.toNat = 10 ∨ c.toNat = 11 ∨ c.toNat = 12 ∨
    c.toNat = 13 ∨ c.toNat = 133 ∨ c.toNat = 160

def isLowerAlpha (c : Char) : Bool := 97 ≤ c.toNat ∧ c.toNat ≤ 122

def isDigitCh (c : Char) : Bool := 48 ≤ c.toNat ∧ c.toNat ≤ 57

def isUpperAlpha (c : Char) : Bool := 65 ≤ c.toNat ∧ c.toNat ≤ 90

def isAsciiAlpha (c : Char) : Bool := isLowerAlpha c || isUpperAlpha c

/-- `re.sub(r"\s+", " ", ·)`: every maximal run of whitespace becomes one space. -/
def collapseWs : List Char → List Char
  | [] => []
  | [c] => if isPyWs c then [' '] else [c]
  | a :: b :: rest =>
    if isPyWs a then
      if isPyWs b then collapseWs (b :: rest) else ' ' :: collapseWs (b :: rest)
    else a :: collapseWs (b :: rest)

/-- Drop a maximal whitespace suffix. -/
def dropTrailingWs : List Char → List Char
  | [] => []
  | c :: rest =>
    let r := dropTrailingWs rest
    if r = [] && isPyWs c then [] else c :: r

/-- Python `str.strip()` on the character list. -/
def pyStripL (xs : List Char) : List Char := dropTrailingWs (xs.dropWhile isPyWs)

def pyStrip (s : String) : String := ⟨pyStripL s.data⟩

/-- Python truthiness-respecting `clean_text` shared by the ingestion scripts:
`None → None`, strip, empty becomes `None`. -/
def clean_text (v : Option String) : Option String :=
  match v with
  | none => none
  | some s => let t := pyStrip s; if t = "" then none else some t

/-- Python `a or b` on optional strings (`None` and `""` are falsy). -/
def pyOrStr (a b : Option String) : Option String :=
  match a with
  | none => b
  | some s => if s = "" then b else some s

/-! ## Name normalizers (`normalize_name` in the two scripts, §4.1 of the spec) -/

/-- keep-class of `normalize_iati_staging.normalize_name`'s
`re.sub(r"[^a-z0-9æøå ]", " ", ·)`. -/
def keepIati (c : Char) : Bool :=
  isLowerAlpha c || isDigitCh c || c = 'æ' || c = 'ø' || c = 'å' || c = ' '

/-- keep-class of `enrich_norad_oecd.normalize_name`'s
`re.sub(r"[^a-z0-9æøå\s-]", " ", ·)`. -/
def keepEnrich (c : Char) : Bool :=
  isLowerAlpha c || isDigitCh c || c = 'æ' || c = 'ø' || c = 'å' || isPyWs c || c = '-'

/-- `value.replace("&", " and ")`. -/
def expandAmp (xs : List Char) : List Char :=
  xs.flatMap (fun c => if c = '&' then [' ', 'a', 'n', 'd', ' '] else [c])

/-- `re.sub(r"\([^)]*\)", " ", ·)`: leftmost non-overlapping parenthesized
segments (whose bodies contain no `)`) become a single space; an unmatched `(`
stays, with whatever was scanned after it. -/
def stripParensAux : List Char → Option (List Char) → List Char
  | [], none => []
  | [], some buf => '(' :: buf.reverse
  | c :: rest, none =>
    if c = '(' then stripParensAux rest (some [])
    else c :: stripParensAux rest none
  | c :: rest, some buf =>
    if c = ')' then ' ' :: stripParensAux rest none
    else stripParensAux rest (some (c :: buf))

def stripParens (xs : List Char) : List Char := stripParensAux xs none

/-- `normalize_name` of `src/scripts/normalize_iati_staging.py` on the character
list: lower, `&`→" and ", `[^a-z0-9æøå ]`→" ", collapse whitespace, strip. -/
def normIatiL (xs : List Char) : List Char :=
  pyStripL (collapseWs ((expandAmp (xs.map pyLower)).map
    (fun c => if keepIati c then c else ' ')))

/-- `normalize_name` of `src/scripts/normalize_iati_staging.py`. -/
def normalize_name_iati (s : String) : String := ⟨normIatiL s.data⟩

/-- `normalize_name` of `src/scripts/enrich_norad_oecd.py` on the character
list: lower, `&`→" and ", strip parentheticals, `[^a-z0-9æøå\s-]`→" ",
collapse whitespace, strip. -/
def normEnrichL (xs : List Char) : List Char :=
  pyStripL (collapseWs ((stripParens (expandAmp (xs.map pyLower))).map
    (fun c => if keepEnrich c then c else ' ')))

/-- `normalize_name` of `src/scripts/enrich_norad_oecd.py`. -/
def normalize_name_enrich (s : String) : String := ⟨normEnrichL s.data⟩

/-- `normalize_ref` of `normalize_iati_staging.py`: upper, strip, remove all
whitespace. -/
def normalize_ref (s : String) : String :=
  ⟨(pyStripL (s.data.map pyUpper)).filter (fun c => !isPyWs c)⟩

/-- `ref_to_country_code`: two leading ASCII letters before a `-` (after
stripping), uppercased; otherwise `None`. -/
def ref_to_country_code (ref : Option String) : Option String :=
  match ref with
  | none => none
  | some s =>
    if s = "" then none
    else
      match pyStripL s.data with
      | a :: b :: '-' :: _ =>
        if isAsciiAlpha a && isAsciiAlpha b then some ⟨[pyUpper a, pyUpper b]⟩ else none
      | _ => none

end NorConnect

namespace NorConnect

/-! ## Query-time filtering (`src/app/main.py`) -/

/-- A `datetime.date`; only `.year` is inspected by the code under study. -/
structure PyDate where
  year : Int
  month : Int
  day : Int
deriving DecidableEq, Repr

/-- Python `a or b` on optional ints (`None` and `0` are falsy). -/
def pyOrInt (a b : Option Int) : Option Int :=
  match a with
  | none => b
  | some n => if n = 0 then b else some n

/-- `in_year_window` (`src/app/main.py`): an anchor year, when present, is
checked directly against the bounds; otherwise the `(start_year, end_year)`
interval — with sentinels `0` / `9999` for missing ends — must overlap the
filter window. -/
def in_year_window (year year_from year_to start_year end_year : Option Int) : Bool :=
  match year with
  | some y =>
    if year_from.any (fun yf => y < yf) then false
    else if year_to.any (fun yt => yt < y) then false
    else true
  | none =>
    let effective_start := start_year.getD 0
    let effective_end := end_year.getD 9999
    if year_from.any (fun yf => effective_end < yf) then false
    else if year_to.any (fun yt => effective_start > yt) then false
    else true

/-- `qn in text` for Python strings. -/
def substrAux : List Char → List Char → Bool
  | n, [] => n.isPrefixOf ([] : List Char)
  | n, c :: rest => n.isPrefixOf (c :: rest) || substrAux n rest

/-- `matches_query` (`src/app/main.py`): case-insensitive substring match of the
stripped query against any non-empty text; an absent/blank query matches all. -/
def matches_query (texts : List (Option String)) (q : Option String) : Bool :=
  match q with
  | none => true
  | some qs =>
    if qs = "" then true
    else
      let qn := pyStrip ⟨qs.data.map pyLower⟩
      if qn = "" then true
      else texts.any (fun t =>
        match t with
        | some s => s ≠ "" && substrAux qn.data (s.data.map pyLower)
        | none => false)

/-- A row of the role-event query feeding `filter_role_rows`. -/
structure RoleRow where
  person_name : Option String
  org_name : Option String
  role_title : Option String
  role_level : Option String
  announced_on : Option PyDate
  start_on : Option PyDate
  end_on : Option PyDate
deriving DecidableEq, Repr

/-- `role_year_bounds`: `(start_year, end_year, anchor_year)` with
`anchor_year = start_year or announced_year`. -/
def role_year_bounds (row : RoleRow) : Option Int × Option Int × Option Int :=
  let start_year := row.start_on.map (·.year)
  let end_year := row.end_on.map (·.year)
  let announced_year := row.announced_on.map (·.year)
  (start_year, end_year, pyOrInt start_year announced_year)

/-- `filter_role_rows`: keeps rows passing the year window (anchor passed as the
interval start, `year=None`) and the text filter; each kept row is returned
together with its computed `anchor_year` (the `row_copy["anchor_year"]` of the
source). -/
def filter_role_rows (rows : List RoleRow) (q : Option String)
    (year_from year_to : Option Int) : List (RoleRow × Option Int) :=
  (rows.filter (fun row =>
      let b := role_year_bounds row
      in_year_window none year_from year_to b.2.2 b.2.1 &&
      matches_query [row.person_name, row.org_name, row.role_title, row.role_level] q)).map
    (fun row => (row, (role_year_bounds row).2.2))

/-- A row of the funding query feeding `filter_funding_rows`. -/
structure FundingQueryRow where
  org_name : Option String
  recipient_name_raw : Option String
  funding_channel : Option String
  period_start : Option PyDate
  period_end : Option PyDate
  fiscal_year : Option Int
deriving DecidableEq, Repr

/-- `funding_year_bounds`: `(period_start_year, period_end_year, fiscal_year)`. -/
def funding_year_bounds (row : FundingQueryRow) : Option Int × Option Int × Option Int :=
  (row.period_start.map (·.year), row.period_end.map (·.year), row.fiscal_year)

/-- `filter_funding_rows`: the fiscal year is passed as the anchor, the period
years as the interval. -/
def filter_funding_rows (rows : List FundingQueryRow) (q : Option String)
    (year_from year_to : Option Int) : List FundingQueryRow :=
  rows.filter (fun row =>
    let b := funding_year_bounds row
    in_year_window b.2.2 year_from year_to b.1 b.2.1 &&
    matches_query [row.org_name, row.recipient_name_raw, row.funding_channel] q)

end NorConnect

namespace NorConnect

/-! ## Funding-flow normalization (`src/scripts/normalize_iati_staging.py`) -/

/-- A staged IATI transaction (`stg_iati_transaction` row as selected in `main`).
Note: the staged row carries two dates and no explicit fiscal-year column. -/
structure StagedRow where
  package_name : Option String
  publisher_iati_id : Option String
  resource_url : String
  activity_iati_identifier : Option String
  transaction_type_code : Option String
  transaction_date : Option PyDate
  value_date : Option PyDate
  value_amount : Option ℚ
  value_currency : Option String
  receiver_org_ref : Option String
  receiver_org_name : Option String
  provider_org_ref : Option String
  provider_org_name : Option String
  reporting_org_ref : Option String
  reporting_org_name : Option String
  event_key : String
deriving DecidableEq, Repr

/-- In-memory `OrganizationLookup` (normalized name / normalized ref → org id). -/
structure OrganizationLookup where
  by_name : List (String × Nat)
  by_ref : List (String × Nat)
deriving DecidableEq, Repr

/-- `map_organization`: by normalized reference first, then by normalized name;
returns the match and the match mode (`"ref"` / `"name"` / `"none"`). -/
def map_organization (lookup : OrganizationLookup) (org_ref org_name : Option String) :
    Option Nat × String :=
  match clean_text org_ref with
  | some ref =>
    match lookup.by_ref.lookup (normalize_ref ref) with
    | some org_id => (some org_id, "ref")
    | none =>
      match clean_text org_name with
      | some name =>
        match lookup.by_name.lookup (normalize_name_iati name) with
        | some org_id => (some org_id, "name")
        | none => (none, "none")
      | none => (none, "none")
  | none =>
    match clean_text org_name with
    | some name =>
      match lookup.by_name.lookup (normalize_name_iati name) with
      | some org_id => (some org_id, "name")
      | none => (none, "none")
    | none => (none, "none")

/-- `choose_fiscal_date`: `transaction_date or value_date`. -/
def choose_fiscal_date (transaction_date value_date : Option PyDate) : Option PyDate :=
  transaction_date.or value_date

/-- `clamp_confidence`: `max(0.50, min(0.95, value))`. -/
def clamp_confidence (value : ℚ) : ℚ := max 0.50 (min 0.95 value)

/-- `build_confidence`: base 0.68 plus the four indicator bonuses, clamped. -/
def build_confidence (recipient_mapped donor_mapped has_date has_type : Bool) : ℚ :=
  let score : ℚ := 0.68
  let score := if recipient_mapped then score + 0.16 else score
  let score := if donor_mapped then score + 0.08 else score
  let score := if has_date then score + 0.04 else score
  let score := if has_type then score + 0.03 else score
  clamp_confidence score

/-- A `funding_flow` row. -/
structure FFRow where
  id : Nat
  donor_organization_id : Option Nat
  donor_country_code : Option String
  recipient_organization_id : Option Nat
  recipient_name_raw : Option String
  funding_channel : Option String
  amount_nok : Option ℚ
  amount_original : Option ℚ
  currency_code : Option String
  fiscal_year : Option Int
  period_start : Option PyDate
  period_end : Option PyDate
  confidence : ℚ
  notes : Option String
deriving DecidableEq, Repr

/-- A `funding_flow_ingest_key` row (`(source_system, event_key)` unique). -/
structure IngestKey where
  source_system : String
  event_key : String
  funding_flow_id : Nat
deriving DecidableEq, Repr

/-- A `source_document` row (only the columns this pipeline writes). -/
structure SourceDoc where
  id : Nat
  source_name : Option String
  url : String
  doc_type : Option String
  notes : Option String
deriving DecidableEq, Repr

/-- An `organization_alias` row (unique on `(organization_id, alias)`); the
`alias` column is called `alias_text` because `alias` is a Lean keyword. -/
structure AliasRow where
  organization_id : Nat
  alias_text : String
  source_system : String
  source_document_id : Option Nat
deriving DecidableEq, Repr

/-- The mutable state of one normalization run: the touched tables, the
source-document cache and the run counters of `main`. -/
structure RunState where
  flows : List FFRow
  ingestKeys : List IngestKey
  sourceDocs : List SourceDoc
  aliases : List AliasRow
  ffSourceLinks : List (Nat × Nat × String)
  docCache : List (String × Nat)
  nextFlowId : Nat
  nextDocId : Nat
  processed : Nat
  inserted : Nat
  skipped_existing : Nat
  skipped_no_recipient : Nat
  recipient_mapped_count : Nat
  donor_mapped_count : Nat
deriving DecidableEq, Repr

/-- `lookup_flow_by_ingest_key`. -/
def lookup_flow_by_ingest_key (keys : List IngestKey) (source_system event_key : String) :
    Option Nat :=
  (keys.find? (fun k => k.source_system = source_system && k.event_key = event_key)).map
    (·.funding_flow_id)

/-- `ensure_source_document`: upsert by `url`, `COALESCE(EXCLUDED.x, old.x)`
field updates, returning the row id. -/
def ensure_source_document (s : RunState) (resource_url : String)
    (package_name publisher_iati_id : Option String) : Nat × RunState :=
  let notes :=
    match package_name, publisher_iati_id with
    | some p, some q => some ("package=" ++ p ++ "; publisher_iati_id=" ++ q)
    | some p, none => some ("package=" ++ p)
    | none, some q => some ("publisher_iati_id=" ++ q)
    | none, none => none
  match s.sourceDocs.find? (fun d => d.url = resource_url) with
  | some d =>
    let d' : SourceDoc :=
      { d with
        source_name := (some "iati-registry").or d.source_name
        doc_type := (some "iati_xml").or d.doc_type
        notes := notes.or d.notes }
    (d.id, { s with sourceDocs := s.sourceDocs.map (fun e => if e.url = resource_url then d' else e) })
  | none =>
    let d' : SourceDoc :=
      { id := s.nextDocId, source_name := some "iati-registry", url := resource_url
        doc_type := some "iati_xml", notes := notes }
    (s.nextDocId, { s with sourceDocs := s.sourceDocs ++ [d'], nextDocId := s.nextDocId + 1 })

/-- `ensure_org_alias` (`normalize_iati_staging.py`): cleaned alias inserted with
`ON CONFLICT (organization_id, alias) DO NOTHING`. -/
def ensure_org_alias (table : List AliasRow) (organization_id : Nat)
    (aliasv : Option String) (source_document_id : Option Nat) : List AliasRow :=
  match clean_text aliasv with
  | none => table
  | some a =>
    if table.any (fun r => r.organization_id = organization_id && r.alias_text = a) then table
    else table ++ [{ organization_id := organization_id, alias_text := a,
                     source_system := "iati_ref", source_document_id := source_document_id }]

/-- `ensure_funding_ingest_key`: upsert on `(source_system, event_key)`. -/
def ensure_funding_ingest_key (keys : List IngestKey)
    (source_system event_key : String) (funding_flow_id : Nat) : List IngestKey :=
  if keys.any (fun k => k.source_system = source_system && k.event_key = event_key) then
    keys.map (fun k =>
      if k.source_system = source_system && k.event_key = event_key then
        { k with funding_flow_id := funding_flow_id }
      else k)
  else keys ++ [{ source_system := source_system, event_key := event_key,
                  funding_flow_id := funding_flow_id }]

/-- `ensure_funding_source_link`: `ON CONFLICT DO NOTHING` junction insert. -/
def ensure_funding_source_link (links : List (Nat × Nat × String))
    (funding_flow_id source_document_id : Nat) : List (Nat × Nat × String) :=
  if links.any (fun l => l = (funding_flow_id, source_document_id, "iati_xml")) then links
  else links ++ [(funding_flow_id, source_document_id, "iati_xml")]

/-- Render an optional value the way a Python f-string renders it (`None` prints
as `"None"`). -/
def optStr (o : Option String) : String := o.getD "None"

end NorConnect

namespace NorConnect

/-- The source-document step of the loop body: cache lookup, else
`ensure_source_document` plus cache fill. -/
def sourceDocStep (s : RunState) (row : StagedRow) : Nat × RunState :=
  match s.docCache.lookup row.resource_url with
  | some i => (i, s)
  | none =>
    let r := ensure_source_document s row.resource_url row.package_name row.publisher_iati_id
    (r.1, { r.2 with docCache := r.2.docCache ++ [(row.resource_url, r.1)] })

/-- The tail of the loop body, entered once a recipient is settled: donor
resolution, currency policy, fiscal date, confidence, insert, ingest key and
source link. -/
def processRest (source_system : String) (lookup : OrganizationLookup) (s : RunState)
    (row : StagedRow) (source_document_id : Nat) (recipient_org_id : Option Nat)
    (recipient_match_mode : String) (recipient_name_raw : Option String) : RunState :=
  let donor_ref := pyOrStr row.provider_org_ref row.reporting_org_ref
  let dm := map_organization lookup donor_ref (pyOrStr row.provider_org_name row.reporting_org_name)
  let donor_org_id := dm.1
  let donor_match_mode := dm.2
  let s :=
    match donor_org_id with
    | some did =>
      { s with donor_mapped_count := s.donor_mapped_count + 1
               aliases := ensure_org_alias s.aliases did donor_ref (some source_document_id) }
    | none => s
  let donor_country_code := ref_to_country_code donor_ref
  match row.value_amount with
  | none => s
  | some amount =>
    let currency := (clean_text row.value_currency).map (fun c => (⟨c.data.map pyUpper⟩ : String))
    let acc : Option ℚ × Option ℚ × Option String :=
      match currency with
      | some c => if c = "NOK" then (some amount, none, none) else (none, some amount, some c)
      | none => (some amount, none, none)
    let fiscal_date := choose_fiscal_date row.transaction_date row.value_date
    let fiscal_year := fiscal_date.map (·.year)
    let tx_type := clean_text row.transaction_type_code
    let funding_channel :=
      match tx_type with
      | some t => "IATI transaction type " ++ t
      | none => "IATI transaction"
    let notes := "IATI activity=" ++ optStr row.activity_iati_identifier ++
      "; match_recipient=" ++ recipient_match_mode ++
      "; match_donor=" ++ donor_match_mode ++
      "; event_key=" ++ row.event_key
    let confidence := build_confidence recipient_org_id.isSome donor_org_id.isSome
      fiscal_date.isSome tx_type.isSome
    let flow : FFRow :=
      { id := s.nextFlowId, donor_organization_id := donor_org_id
        donor_country_code := donor_country_code
        recipient_organization_id := recipient_org_id
        recipient_name_raw := recipient_name_raw
        funding_channel := some funding_channel
        amount_nok := acc.1, amount_original := acc.2.1, currency_code := acc.2.2
        fiscal_year := fiscal_year, period_start := fiscal_date, period_end := fiscal_date
        confidence := confidence, notes := some notes }
    { s with
      flows := s.flows ++ [flow]
      nextFlowId := s.nextFlowId + 1
      inserted := s.inserted + 1
      ingestKeys := ensure_funding_ingest_key s.ingestKeys source_system row.event_key flow.id
      ffSourceLinks := ensure_funding_source_link s.ffSourceLinks flow.id source_document_id }

/-- The whole loop body of `main` over one staged row (modelled without the
optional `--max-rows` cap). -/
def processRow (source_system : String) (lookup : OrganizationLookup) (s : RunState)
    (row : StagedRow) : RunState :=
  match lookup_flow_by_ingest_key s.ingestKeys source_system row.event_key with
  | some _ => { s with processed := s.processed + 1, skipped_existing := s.skipped_existing + 1 }
  | none =>
    let s := { s with processed := s.processed + 1 }
    let t := sourceDocStep s row
    let source_document_id := t.1
    let s := t.2
    let rm := map_organization lookup row.receiver_org_ref row.receiver_org_name
    match rm.1 with
    | none =>
      match clean_text row.receiver_org_name with
      | none => { s with skipped_no_recipient := s.skipped_no_recipient + 1 }
      | some raw =>
        processRest source_system lookup s row source_document_id none rm.2 (some raw)
    | some rid =>
      let s :=
        { s with recipient_mapped_count := s.recipient_mapped_count + 1
                 aliases := ensure_org_alias s.aliases rid row.receiver_org_ref
                   (some source_document_id) }
      processRest source_system lookup s row source_document_id (some rid) rm.2 none

/-- Processing a stream of staged rows in order. -/
def processRows (source_system : String) (lookup : OrganizationLookup)
    (s : RunState) (rows : List StagedRow) : RunState :=
  rows.foldl (processRow source_system lookup) s

/-- A staged row materializes a FundingFlow iff some recipient can be kept
(resolved, or a non-blank raw name) and an amount is present; this predicate
depends only on the row and the (run-constant) lookup. -/
def insertable (lookup : OrganizationLookup) (row : StagedRow) : Prop :=
  ((map_organization lookup row.receiver_org_ref row.receiver_org_name).1 ≠ none ∨
    clean_text row.receiver_org_name ≠ none) ∧ row.value_amount ≠ none

instance (lookup : OrganizationLookup) (row : StagedRow) :
    Decidable (insertable lookup row) := by
  unfold insertable; infer_instance

end NorConnect

namespace NorConnect

/-! ## Idempotence infrastructure for the name normalizers -/

/-- No two adjacent whitespace characters. -/
def noAdjWs : List Char → Prop
  | a :: b :: rest => ¬(isPyWs a = true ∧ isPyWs b = true) ∧ noAdjWs (b :: rest)
  | _ => True

theorem noAdjWs_tail {a : Char} {l : List Char} (h : noAdjWs (a :: l)) : noAdjWs l := by
  cases l with
  | nil => trivial
  | cons b rest => exact h.2

theorem collapseWs_mem {xs : List Char} {c : Char} (h : c ∈ collapseWs xs) :
    c = ' ' ∨ (c ∈ xs ∧ isPyWs c = false) := by
  induction xs using collapseWs.induct with
  | case1 => simp [collapseWs] at h
  | case2 d hw =>
    simp [collapseWs, hw] at h; exact Or.inl h
  | case3 d hw =>
    simp [collapseWs, hw] at h
    subst h; exact Or.inr ⟨List.mem_singleton_self _, by simpa using hw⟩
  | case4 a b rest ha hb ih =>
    rw [collapseWs, if_pos ha, if_pos hb] at h
    rcases ih h with h1 | ⟨h2, h3⟩
    · exact Or.inl h1
    · exact Or.inr ⟨List.mem_cons_of_mem _ h2, h3⟩
  | case5 a b rest ha hb ih =>
    rw [collapseWs, if_pos ha, if_neg hb] at h
    rcases List.mem_cons.mp h with h1 | h1
    · exact Or.inl h1
    · rcases ih h1 with h2 | ⟨h2, h3⟩
      · exact Or.inl h2
      · exact Or.inr ⟨List.mem_cons_of_mem _ h2, h3⟩
  | case6 a b rest ha ih =>
    rw [collapseWs, if_neg ha] at h
    rcases List.mem_cons.mp h with h1 | h1
    · subst h1; exact Or.inr ⟨List.mem_cons_self _ _, by simpa using ha⟩
    · rcases ih h1 with h2 | ⟨h2, h3⟩
      · exact Or.inl h2
      · exact Or.inr ⟨List.mem_cons_of_mem _ h2, h3⟩

theorem collapseWs_cons_not_ws {b : Char} {rest : List Char} (hb : isPyWs b = false) :
    ∃ t, collapseWs (b :: rest) = b :: t := by
  cases rest with
  | nil => exact ⟨[], by simp [collapseWs, hb]⟩
  | cons c r => exact ⟨collapseWs (c :: r), by rw [collapseWs, if_neg (by simp [hb])]⟩

theorem collapseWs_noAdjWs (xs : List Char) : noAdjWs (collapseWs xs) := by
  induction xs using collapseWs.induct with
  | case1 => simp [collapseWs, noAdjWs]
  | case2 d hw => simp [collapseWs, hw, noAdjWs]
  | case3 d hw => simp [collapseWs, hw, noAdjWs]
  | case4 a b rest ha hb ih => rw [collapseWs, if_pos ha, if_pos hb]; exact ih
  | case5 a b rest ha hb ih =>
    rw [collapseWs, if_pos ha, if_neg hb]
    obtain ⟨t, ht⟩ := collapseWs_cons_not_ws (by simpa using hb)
    rw [ht]
    refine ⟨fun hp => ?_, by rw [← ht]; exact ih⟩
    simp only [Bool.not_eq_true] at hb
    rw [hb] at hp
    exact Bool.false_ne_true hp.2
  | case6 a b rest ha ih =>
    rw [collapseWs, if_neg ha]
    rcases hcb : collapseWs (b :: rest) with _ | ⟨c, t⟩
    · trivial
    · refine ⟨fun hp => ha hp.1, ?_⟩
      rw [← hcb]; exact ih

theorem collapseWs_id {xs : List Char}
    (h1 : ∀ c ∈ xs, isPyWs c = true → c = ' ') (h2 : noAdjWs xs) :
    collapseWs xs = xs := by
  induction xs using collapseWs.induct with
  | case1 => rfl
  | case2 d hw =>
    rw [collapseWs, if_pos hw, h1 d (List.mem_singleton_self d) hw]
  | case3 d hw =>
    rw [collapseWs, if_neg hw]
  | case4 a b rest ha hb ih =>
    exact absurd ⟨ha, hb⟩ h2.1
  | case5 a b rest ha hb ih =>
    rw [collapseWs, if_pos ha, if_neg hb,
      ih (fun c hc hw => h1 c (List.mem_cons_of_mem _ hc) hw) (noAdjWs_tail h2)]
    rw [h1 a (List.mem_cons_self _ _) ha]
  | case6 a b rest ha ih =>
    rw [collapseWs, if_neg ha,
      ih (fun c hc hw => h1 c (List.mem_cons_of_mem _ hc) hw) (noAdjWs_tail h2)]

theorem dropTrailingWs_mem {xs : List Char} {c : Char} (h : c ∈ dropTrailingWs xs) :
    c ∈ xs := by
  induction xs with
  | nil => simp [dropTrailingWs] at h
  | cons a rest ih =>
    rw [dropTrailingWs] at h
    split at h
    · simp at h
    · rcases List.mem_cons.mp h with h1 | h1
      · simp [h1]
      · exact List.mem_cons_of_mem _ (ih h1)

theorem dropTrailingWs_cons (c : Char) (rest : List Char) :
    dropTrailingWs (c :: rest) = [] ∨
      dropTrailingWs (c :: rest) = c :: dropTrailingWs rest := by
  rw [dropTrailingWs]
  split
  · exact Or.inl rfl
  · exact Or.inr rfl

theorem dropTrailingWs_idem (xs : List Char) :
    dropTrailingWs (dropTrailingWs xs) = dropTrailingWs xs := by
  induction xs with
  | nil => rfl
  | cons a rest ih =>
    rw [dropTrailingWs]
    split
    · rfl
    · next hcond =>
      rw [dropTrailingWs, ih]
      simp only [Bool.and_eq_true, decide_eq_true_eq] at hcond ⊢
      rw [if_neg hcond]

theorem dropTrailingWs_noAdjWs {xs : List Char} (h : noAdjWs xs) :
    noAdjWs (dropTrailingWs xs) := by
  induction xs with
  | nil => trivial
  | cons a rest ih =>
    rcases dropTrailingWs_cons a rest with h1 | h1 <;> rw [h1]
    · trivial
    · cases rest with
      | nil => simp [dropTrailingWs, noAdjWs]
      | cons b r =>
        rcases dropTrailingWs_cons b r with h2 | h2 <;> rw [h2]
        · trivial
        · refine ⟨h.1, ?_⟩
          rw [← h2]
          exact ih (noAdjWs_tail h)

theorem dropWhile_noAdjWs {p : Char → Bool} {xs : List Char} (h : noAdjWs xs) :
    noAdjWs (xs.dropWhile p) := by
  induction xs with
  | nil => trivial
  | cons a rest ih =>
    rw [List.dropWhile_cons]
    split
    · exact ih (noAdjWs_tail h)
    · exact h

theorem dropWhile_head_false {p : Char → Bool} {xs : List Char} {c : Char} {t : List Char}
    (h : xs.dropWhile p = c :: t) : p c = false := by
  induction xs with
  | nil => simp at h
  | cons a rest ih =>
    rw [List.dropWhile_cons] at h
    split at h
    · exact ih h
    · next hp => cases h; simpa using hp

theorem pyStripL_mem {xs : List Char} {c : Char} (h : c ∈ pyStripL xs) : c ∈ xs := by
  exact (List.dropWhile_sublist _).mem (dropTrailingWs_mem h)

theorem pyStripL_noAdjWs {xs : List Char} (h : noAdjWs xs) : noAdjWs (pyStripL xs) := by
  exact dropTrailingWs_noAdjWs (dropWhile_noAdjWs h)

theorem pyStripL_head_false {xs : List Char} {c : Char} {t : List Char}
    (h : pyStripL xs = c :: t) : isPyWs c = false := by
  unfold pyStripL at h
  rcases hd : xs.dropWhile isPyWs with _ | ⟨b, r⟩
  · rw [hd] at h; simp [dropTrailingWs] at h
  · rw [hd] at h
    rcases dropTrailingWs_cons b r with h1 | h1 <;> rw [h1] at h
    · simp at h
    · cases h; exact dropWhile_head_false hd

theorem pyStripL_idem (xs : List Char) : pyStripL (pyStripL xs) = pyStripL xs := by
  unfold pyStripL
  rcases hy : (xs.dropWhile isPyWs) with _ | ⟨c, t⟩
  · simp [dropTrailingWs]
  · have hc : isPyWs c = false := dropWhile_head_false hy
    rcases dropTrailingWs_cons c t with h1 | h1 <;> rw [h1]
    · simp [dropTrailingWs]
    · rw [List.dropWhile_cons, if_neg (by simp [hc])]
      rw [show c :: dropTrailingWs t = dropTrailingWs (c :: t) from h1.symm,
        dropTrailingWs_idem]

end NorConnect

namespace NorConnect

/-! ### Character facts for the normalizer keep-classes -/

theorem keepIati_pyLower {c : Char} (h : keepIati c = true) : pyLower c = c := by
  simp only [keepIati, Bool.or_eq_true, isLowerAlpha, isDigitCh, decide_eq_true_eq] at h
  rcases h with ((((h | h) | h) | h) | h) | h
  · rw [pyLower, if_neg (by omega)]
  · rw [pyLower, if_neg (by omega)]
  all_goals subst h; decide

theorem keepIati_not_amp {c : Char} (h : keepIati c = true) : c ≠ '&' := by
  rintro rfl; simp [keepIati, isLowerAlpha, isDigitCh] at h

theorem keepIati_ws {c : Char} (h : keepIati c = true) (hw : isPyWs c = true) : c = ' ' := by
  simp only [keepIati, Bool.or_eq_true, isLowerAlpha, isDigitCh, decide_eq_true_eq] at h
  simp only [isPyWs, Bool.or_eq_true, decide_eq_true_eq] at hw
  rcases h with ((((h | h) | h) | h) | h) | h
  · exfalso; omega
  · exfalso; omega
  · subst h; exfalso; revert hw; decide
  · subst h; exfalso; revert hw; decide
  · subst h; exfalso; revert hw; decide
  · subst h; rfl

theorem keepEnrich_pyLower {c : Char} (h : keepEnrich c = true)
    (hw : isPyWs c = true → c = ' ') : pyLower c = c := by
  simp only [keepEnrich, Bool.or_eq_true, isLowerAlpha, isDigitCh, decide_eq_true_eq] at h
  rcases h with (((((h | h) | h) | h) | h) | h) | h
  · rw [pyLower, if_neg (by omega)]
  · rw [pyLower, if_neg (by omega)]
  · subst h; decide
  · subst h; decide
  · subst h; decide
  · rw [hw h]; decide
  · subst h; decide

theorem keepEnrich_not_amp {c : Char} (h : keepEnrich c = true) : c ≠ '&' := by
  rintro rfl; simp [keepEnrich, isLowerAlpha, isDigitCh, isPyWs] at h

theorem keepEnrich_not_paren {c : Char} (h : keepEnrich c = true) : c ≠ '(' := by
  rintro rfl; simp [keepEnrich, isLowerAlpha, isDigitCh, isPyWs] at h

theorem keepEnrich_ws_of_keepIati_or_space {c : Char}
    (h : keepIati c = true ∨ c = ' ') : keepEnrich c = true := by
  rcases h with h | h
  · simp only [keepIati, Bool.or_eq_true, decide_eq_true_eq] at h
    simp only [keepEnrich, Bool.or_eq_true, decide_eq_true_eq]
    rcases h with ((((h | h) | h) | h) | h) | h
    · exact Or.inl (Or.inl (Or.inl (Or.inl (Or.inl (Or.inl h)))))
    · exact Or.inl (Or.inl (Or.inl (Or.inl (Or.inl (Or.inr h)))))
    · exact Or.inl (Or.inl (Or.inl (Or.inl (Or.inr h))))
    · exact Or.inl (Or.inl (Or.inl (Or.inr h)))
    · exact Or.inl (Or.inl (Or.inr h))
    · subst h; exact Or.inl (Or.inr (by decide))
  · subst h; decide

theorem keepIati_space : keepIati ' ' = true := by decide

/-! ### Stage-identity lemmas -/

theorem map_id_of {xs : List Char} {f : Char → Char} (h : ∀ c ∈ xs, f c = c) :
    xs.map f = xs := by
  induction xs with
  | nil => rfl
  | cons a rest ih =>
    rw [List.map_cons, h a (List.mem_cons_self _ _), ih (fun c hc => h c (List.mem_cons_of_mem _ hc))]

theorem expandAmp_id {xs : List Char} (h : ∀ c ∈ xs, c ≠ '&') : expandAmp xs = xs := by
  induction xs with
  | nil => rfl
  | cons a rest ih =>
    rw [expandAmp, List.flatMap_cons, if_neg (h a (List.mem_cons_self _ _))]
    rw [show (List.flatMap rest fun c => if c = '&' then [' ', 'a', 'n', 'd', ' '] else [c]) =
      expandAmp rest from rfl,
      ih (fun c hc => h c (List.mem_cons_of_mem _ hc))]
    rfl

theorem stripParens_id {xs : List Char} (h : ∀ c ∈ xs, c ≠ '(') : stripParens xs = xs := by
  unfold stripParens
  induction xs with
  | nil => rfl
  | cons a rest ih =>
    rw [stripParensAux, if_neg (h a (List.mem_cons_self _ _)),
      ih (fun c hc => h c (List.mem_cons_of_mem _ hc))]

theorem dropWhile_eq_self_of_head {xs : List Char} {p : Char → Bool}
    (h : ∀ c t, xs = c :: t → p c = false) : xs.dropWhile p = xs := by
  cases xs with
  | nil => rfl
  | cons a rest => rw [List.dropWhile_cons, if_neg (by simp [h a rest rfl])]

theorem pyStripL_id {xs : List Char}
    (hh : ∀ c t, xs = c :: t → isPyWs c = false) (ht : dropTrailingWs xs = xs) :
    pyStripL xs = xs := by
  unfold pyStripL
  rw [dropWhile_eq_self_of_head hh, ht]

end NorConnect

namespace NorConnect

/-! ### Idempotence of the two normalizers -/

theorem normIatiL_allKeep (xs : List Char) : ∀ c ∈ normIatiL xs, keepIati c = true := by
  intro c hc
  have hm : ∀ d ∈ (expandAmp (xs.map pyLower)).map (fun c => if keepIati c then c else ' '),
      keepIati d = true := by
    intro d hd
    obtain ⟨e, _, he⟩ := List.mem_map.mp hd
    by_cases hk : keepIati e = true
    · rwa [← he, if_pos hk]
    · rw [← he, if_neg hk]; exact keepIati_space
  have hc' := pyStripL_mem hc
  rcases collapseWs_mem hc' with h | ⟨h, _⟩
  · subst h; exact keepIati_space
  · exact hm c h

theorem normIatiL_noAdj (xs : List Char) : noAdjWs (normIatiL xs) :=
  pyStripL_noAdjWs (collapseWs_noAdjWs _)

theorem normIatiL_trail (xs : List Char) :
    dropTrailingWs (normIatiL xs) = normIatiL xs := by
  unfold normIatiL pyStripL
  exact dropTrailingWs_idem _

theorem normIatiL_fixed {ys : List Char}
    (hk : ∀ c ∈ ys, keepIati c = true) (hadj : noAdjWs ys)
    (hhead : ∀ c t, ys = c :: t → isPyWs c = false)
    (htrail : dropTrailingWs ys = ys) :
    normIatiL ys = ys := by
  unfold normIatiL
  rw [map_id_of (fun c hc => keepIati_pyLower (hk c hc)),
    expandAmp_id (fun c hc => keepIati_not_amp (hk c hc)),
    map_id_of (fun c hc => if_pos (hk c hc)),
    collapseWs_id (fun c hc hw => keepIati_ws (hk c hc) hw) hadj,
    pyStripL_id hhead htrail]

theorem normIatiL_idem (xs : List Char) : normIatiL (normIatiL xs) = normIatiL xs :=
  normIatiL_fixed (normIatiL_allKeep xs) (normIatiL_noAdj xs)
    (fun _ _ h => pyStripL_head_false h) (normIatiL_trail xs)

/-- The good-output predicate for the enrich-side normalizer: kept characters,
whose only whitespace is a plain space. -/
def goodEnrich (c : Char) : Prop := keepEnrich c = true ∧ (isPyWs c = true → c = ' ')

theorem normEnrichL_allGood (xs : List Char) : ∀ c ∈ normEnrichL xs, goodEnrich c := by
  intro c hc
  have hm : ∀ d ∈ (stripParens (expandAmp (xs.map pyLower))).map
      (fun c => if keepEnrich c then c else ' '), keepEnrich d = true := by
    intro d hd
    obtain ⟨e, _, he⟩ := List.mem_map.mp hd
    by_cases hk : keepEnrich e = true
    · rwa [← he, if_pos hk]
    · rw [← he, if_neg hk]; exact keepEnrich_ws_of_keepIati_or_space (Or.inr rfl)
  have hc' := pyStripL_mem hc
  rcases collapseWs_mem hc' with h | ⟨h, hnw⟩
  · subst h
    exact ⟨keepEnrich_ws_of_keepIati_or_space (Or.inr rfl), fun _ => rfl⟩
  · exact ⟨hm c h, fun hw => absurd hw (by simp [hnw])⟩

theorem normEnrichL_trail (xs : List Char) :
    dropTrailingWs (normEnrichL xs) = normEnrichL xs := by
  unfold normEnrichL pyStripL
  exact dropTrailingWs_idem _

theorem normEnrichL_fixed {ys : List Char}
    (hk : ∀ c ∈ ys, goodEnrich c) (hadj : noAdjWs ys)
    (hhead : ∀ c t, ys = c :: t → isPyWs c = false)
    (htrail : dropTrailingWs ys = ys) :
    normEnrichL ys = ys := by
  unfold normEnrichL
  rw [map_id_of (fun c hc => keepEnrich_pyLower (hk c hc).1 (hk c hc).2),
    expandAmp_id (fun c hc => keepEnrich_not_amp (hk c hc).1),
    stripParens_id (fun c hc => keepEnrich_not_paren (hk c hc).1),
    map_id_of (fun c hc => if_pos (hk c hc).1),
    collapseWs_id (fun c hc hw => (hk c hc).2 hw) hadj,
    pyStripL_id hhead htrail]

theorem normEnrichL_idem (xs : List Char) : normEnrichL (normEnrichL xs) = normEnrichL xs :=
  normEnrichL_fixed (normEnrichL_allGood xs) (pyStripL_noAdjWs (collapseWs_noAdjWs _))
    (fun _ _ h => pyStripL_head_false h) (normEnrichL_trail xs)

end NorConnect

namespace NorConnect

/-! ## Similarity scorer (`src/scripts/enrich_norad_oecd.py`) -/

/-- The `STOPWORDS` set of `enrich_norad_oecd.py`. -/
def STOPWORDS : List String :=
  ["the", "and", "for", "of", "in", "to", "international", "organization",
   "organisasjon", "centre", "center", "fund", "group", "global", "world",
   "united", "nations"]

/-- Python `str.split()` (split on whitespace runs, no empty fields). -/
def splitWsAux : List Char → List Char → List (List Char)
  | [], acc => if acc = [] then [] else [acc.reverse]
  | c :: rest, acc =>
    if isPyWs c then
      if acc = [] then splitWsAux rest [] else acc.reverse :: splitWsAux rest []
    else splitWsAux rest (c :: acc)

def splitWs (xs : List Char) : List (List Char) := splitWsAux xs []

/-- Python `str.isdigit` restricted to ASCII digits (the only digits that
survive the normalizer). -/
def pyIsDigit (s : String) : Bool := s.data ≠ [] && s.data.all isDigitCh

/-- `token_set`: words of the normalized name of length ≥ 3, neither stopwords
nor all-digit. -/
def token_set (text : String) : Finset String :=
  (((splitWs (normalize_name_enrich text).data).map (fun l => (⟨l⟩ : String))).filter
    (fun t => t.length ≥ 3 && !(STOPWORDS.contains t) && !(pyIsDigit t))).toFinset

/-- Length of the common prefix of two character lists. -/
def commonPrefixLen : List Char → List Char → Nat
  | a :: as, b :: bs => if a = b then commonPrefixLen as bs + 1 else 0
  | _, _ => 0

/-- One candidate step of `find_longest_match`: try the block starting at
`(i, j)` and keep it only when strictly longer. -/
def innerStep (a b : List Char) (i : Nat) (best : Nat × Nat × Nat) (j : Nat) :
    Nat × Nat × Nat :=
  let k := commonPrefixLen (a.drop i) (b.drop j)
  if best.2.2 < k then (i, j, k) else best

def outerStep (a b : List Char) (best : Nat × Nat × Nat) (i : Nat) : Nat × Nat × Nat :=
  (List.range b.length).foldl (innerStep a b i) best

/-- `difflib.SequenceMatcher.find_longest_match` (no junk, no autojunk): the
longest common contiguous block, earliest in `a` then in `b` on ties, returned
as `(i, j, size)`. -/
def bestMatch (a b : List Char) : Nat × Nat × Nat :=
  (List.range a.length).foldl (outerStep a b) (0, 0, 0)

/-- Total matched characters of the Ratcliff–Obershelp recursion
(`get_matching_blocks`), run on explicit fuel; `roMatches` supplies fuel that
always suffices (the recursion depth is bounded by the total length). -/
def roMatchesF : Nat → List Char → List Char → Nat
  | 0, _, _ => 0
  | fuel + 1, a, b =>
    let m := bestMatch a b
    if m.2.2 = 0 then 0
    else
      m.2.2 + roMatchesF fuel (a.take m.1) (b.take m.2.1) +
        roMatchesF fuel (a.drop (m.1 + m.2.2)) (b.drop (m.2.1 + m.2.2))

def roMatches (a b : List Char) : Nat := roMatchesF (a.length + b.length + 1) a b

/-- `SequenceMatcher.ratio()`: `2·M / T` (1 when both strings are empty). -/
def seqRatio (a b : String) : ℚ :=
  if a.length + b.length = 0 then 1
  else 2 * (roMatches a.data b.data : ℚ) / ((a.length : ℚ) + (b.length : ℚ))

/-- `similarity` (`enrich_norad_oecd.py`):
`0.65·charRatio + 0.35·jaccard + 0.1·[containment]`, capped at 1. -/
def similarity (a b : String) : ℚ :=
  let a_norm := normalize_name_enrich a
  let b_norm := normalize_name_enrich b
  if a_norm = "" ∨ b_norm = "" then 0
  else
    let seq := seqRatio a_norm b_norm
    let a_tokens := token_set a
    let b_tokens := token_set b
    let jaccard : ℚ :=
      if a_tokens = ∅ ∨ b_tokens = ∅ then 0
      else ((a_tokens ∩ b_tokens).card : ℚ) / ((a_tokens ∪ b_tokens).card : ℚ)
    let contains_boost : ℚ :=
      if substrAux a_norm.data b_norm.data ∨ substrAux b_norm.data a_norm.data then 0.1 else 0
    min (seq * 0.65 + jaccard * 0.35 + contains_boost) 1

end NorConnect

namespace NorConnect

/-! ### Reflexivity facts for the character-ratio -/

theorem commonPrefixLen_self (xs : List Char) : commonPrefixLen xs xs = xs.length := by
  induction xs with
  | nil => rfl
  | cons a t ih => rw [commonPrefixLen, if_pos rfl, ih]; rfl

theorem commonPrefixLen_le_left (a b : List Char) : commonPrefixLen a b ≤ a.length := by
  induction a generalizing b with
  | nil => cases b <;> simp [commonPrefixLen]
  | cons x t ih =>
    cases b with
    | nil => simp [commonPrefixLen]
    | cons y u =>
      rw [commonPrefixLen]
      split
      · simpa using ih u
      · simp

theorem innerStep_id {a b : List Char} {i j : Nat} {best : Nat × Nat × Nat}
    (h : commonPrefixLen (a.drop i) (b.drop j) ≤ best.2.2) :
    innerStep a b i best j = best := by
  unfold innerStep
  rw [if_neg (not_lt.mpr h)]

theorem inner_fold_stable {a b : List Char} {i : Nat} {best : Nat × Nat × Nat}
    (h : ∀ j, commonPrefixLen (a.drop i) (b.drop j) ≤ best.2.2) (l : List Nat) :
    l.foldl (innerStep a b i) best = best := by
  induction l with
  | nil => rfl
  | cons j t ih => rw [List.foldl_cons, innerStep_id (h j)]; exact ih

theorem outerStep_id {a b : List Char} {i : Nat} {best : Nat × Nat × Nat}
    (h : ∀ j, commonPrefixLen (a.drop i) (b.drop j) ≤ best.2.2) :
    outerStep a b best i = best :=
  inner_fold_stable h _

theorem outer_fold_stable {a b : List Char} {best : Nat × Nat × Nat}
    (h : ∀ i j, commonPrefixLen (a.drop i) (b.drop j) ≤ best.2.2) (l : List Nat) :
    l.foldl (outerStep a b) best = best := by
  induction l with
  | nil => rfl
  | cons i t ih => rw [List.foldl_cons, outerStep_id (h i)]; exact ih

theorem bestMatch_self {x : List Char} (hx : x ≠ []) :
    bestMatch x x = (0, 0, x.length) := by
  obtain ⟨n, hn⟩ : ∃ n, x.length = n + 1 := by
    cases x with
    | nil => exact absurd rfl hx
    | cons c t => exact ⟨t.length, rfl⟩
  unfold bestMatch
  rw [hn, List.range_succ_eq_map, List.foldl_cons]
  have hout : outerStep x x (0, 0, 0) 0 = (0, 0, n + 1) := by
    unfold outerStep
    rw [hn, List.range_succ_eq_map, List.foldl_cons]
    have hstep : innerStep x x 0 (0, 0, 0) 0 = (0, 0, n + 1) := by
      unfold innerStep
      simp [commonPrefixLen_self, hn]
    rw [hstep]
    refine inner_fold_stable (fun j => ?_) _
    calc commonPrefixLen (x.drop 0) (x.drop j) ≤ (x.drop 0).length :=
          commonPrefixLen_le_left _ _
      _ = n + 1 := by simpa using hn
  rw [hout]
  refine outer_fold_stable (fun i j => ?_) _
  calc commonPrefixLen (x.drop i) (x.drop j) ≤ (x.drop i).length :=
        commonPrefixLen_le_left _ _
    _ ≤ x.length := by simp
    _ = n + 1 := hn

theorem roMatchesF_nil (fuel : Nat) : roMatchesF fuel [] [] = 0 := by
  cases fuel with
  | zero => rfl
  | succ f => rfl

theorem roMatches_self (x : List Char) : roMatches x x = x.length := by
  cases hx : x with
  | nil => rfl
  | cons c t =>
    rw [← hx]
    have hne : x ≠ [] := by rw [hx]; simp
    have hlen : x.length + x.length + 1 = (x.length + x.length) + 1 := rfl
    unfold roMatches
    rw [hlen]
    rw [roMatchesF, bestMatch_self hne]
    have hpos : x.length ≠ 0 := by rw [hx]; simp
    rw [if_neg hpos]
    simp [List.drop_length, roMatchesF_nil]

theorem seqRatio_self {n : String} (hn : n ≠ "") : seqRatio n n = 1 := by
  have hlen : n.length ≠ 0 := by
    intro h
    apply hn
    cases n with
    | mk data =>
      simp only [String.length] at h
      rw [List.length_eq_zero] at h
      simp [h]
  unfold seqRatio
  rw [if_neg (by omega)]
  rw [show roMatches n.data n.data = n.length from roMatches_self n.data]
  have hq : (n.length : ℚ) ≠ 0 := by exact_mod_cast hlen
  field_simp
  ring

end NorConnect

namespace NorConnect

/-! ## Person-drilldown role/binding assembly (`src/app/main.py`,
`person_drilldown`) -/

/-- `external_recipient_key`: strip, lower, collapse whitespace, delete
everything outside `[a-z0-9æøå ]`; empty becomes `"unknown"`. -/
def external_recipient_key (name : String) : String :=
  let key := collapseWs ((pyStripL name.data).map pyLower)
  let key := key.filter keepIati
  if key = [] then "unknown" else ⟨key⟩

/-- `role_title.strip().lower()` as used in the dedup signatures. -/
def role_title_sig (title : String) : String := ⟨(pyStripL title.data).map pyLower⟩

/-- A dataset role row as consumed by the drilldown assembly loop. -/
structure DrillRoleRow where
  id : Nat
  org_id : Nat
  org_name : String
  role_title : Option String
  start_on : Option PyDate
  end_on : Option PyDate
deriving DecidableEq, Repr

/-- A curated binding of a `PERSON_DRILLDOWN_PROFILES` entry. -/
structure CuratedBinding where
  institution_name : Option String
  institution_type : Option String
  role_title : Option String
  relation_type : Option String
  start_year : Option Int
  end_year : Option Int
  outside_dataset : Option Bool
  notes : Option String
deriving DecidableEq, Repr

/-- The dedup signature
`(person_key, institution key, role title (stripped/lowered), start, end)`. -/
abbrev Sig := String × String × String × Option Int × Option Int

/-- The projection of an assembled edge that the dedup claims speak about. -/
structure DrillEdge where
  edge_id : String
  source_kind : String
  person_key : String
  inst_key : String
  role_low : String
  start_year : Option Int
  end_year : Option Int
deriving DecidableEq, Repr

def sigOf (e : DrillEdge) : Sig :=
  (e.person_key, e.inst_key, e.role_low, e.start_year, e.end_year)

/-- The role edge emitted for one dataset role row (always emitted; its
signature is registered in `dataset_binding_signatures`). -/
def datasetEdge (key : String) (row : DrillRoleRow) : DrillEdge :=
  let role_title := (pyOrStr row.role_title (some "Rolle")).getD "Rolle"
  { edge_id := "person-role:" ++ key ++ ":" ++ toString row.id
    source_kind := "dataset"
    person_key := key
    inst_key := external_recipient_key row.org_name
    role_low := role_title_sig role_title
    start_year := row.start_on.map (·.year)
    end_year := row.end_on.map (·.year) }

/-- The signature a curated binding computes for itself. -/
def curatedSig (key : String) (item : CuratedBinding) : Sig :=
  let institution_name := (pyOrStr item.institution_name (some "Ukjent institusjon")).getD
    "Ukjent institusjon"
  let role_title := (pyOrStr item.role_title (some "Binding")).getD "Binding"
  (key, external_recipient_key institution_name, role_title_sig role_title,
    item.start_year, item.end_year)

/-- The edge emitted for one surviving curated binding. -/
def curatedEdge (key : String) (idx : Nat) (item : CuratedBinding) : DrillEdge :=
  let institution_name := (pyOrStr item.institution_name (some "Ukjent institusjon")).getD
    "Ukjent institusjon"
  let role_title := (pyOrStr item.role_title (some "Binding")).getD "Binding"
  { edge_id := "curated-binding:" ++ key ++ ":" ++ external_recipient_key institution_name ++
      ":" ++ toString idx
    source_kind := "curated"
    person_key := key
    inst_key := external_recipient_key institution_name
    role_low := role_title_sig role_title
    start_year := item.start_year
    end_year := item.end_year }

/-- Phase 2 of the assembly: one profile's curated bindings, with the year
window, the text filter and the registered-signature drop, in source order. -/
def curatedPhase (sigs : List Sig) (personName : String → String) (q : Option String)
    (year_from year_to : Option Int) (key : String) (items : List CuratedBinding) :
    List DrillEdge :=
  items.enum.filterMap (fun p =>
    let idx := p.1
    let item := p.2
    if ¬ (in_year_window none year_from year_to item.start_year item.end_year = true) then none
    else if ¬ (matches_query [some (personName key), item.institution_name, item.role_title,
        item.relation_type, item.notes] q = true) then none
    else if curatedSig key item ∈ sigs then none
    else some (curatedEdge key idx item))

/-- The role/binding edge list of `person_drilldown`: all dataset role edges
(registering their signatures) followed by the surviving curated bindings. -/
def drilldownRoleEdges (roleRows : List (String × DrillRoleRow))
    (curated : List (String × List CuratedBinding)) (personName : String → String)
    (q : Option String) (year_from year_to : Option Int) : List DrillEdge :=
  let dsEdges := roleRows.map (fun p => datasetEdge p.1 p.2)
  let sigs := roleRows.map (fun p => sigOf (datasetEdge p.1 p.2))
  dsEdges ++ curated.flatMap (fun p => curatedPhase sigs personName q year_from year_to p.1 p.2)

/-! ## Composite-key funding upserts (`enrich_norad_oecd.py`,
`load_palestine_organizations.py`) -/

/-- `find_existing_funding_flow` (`enrich_norad_oecd.py`): composite lookup on
donor scope, recipient, fiscal year, channel and amounts. -/
def find_existing_funding_flow_enrich (table : List FFRow) (recipient_organization_id : Nat)
    (fiscal_year : Option Int) (funding_channel : String)
    (amount_nok amount_original : Option ℚ) (currency_code : Option String) : Option Nat :=
  (table.find? (fun f =>
    f.donor_country_code = some "NO" &&
    f.recipient_organization_id = some recipient_organization_id &&
    f.fiscal_year = fiscal_year &&
    f.funding_channel = some funding_channel &&
    f.amount_nok = amount_nok &&
    f.amount_original = amount_original &&
    f.currency_code = currency_code)).map (·.id)

/-- `upsert_funding_flow` (`enrich_norad_oecd.py`): on a composite-key hit,
`UPDATE ... SET notes = COALESCE(%s, notes)`; otherwise insert with
confidence 0.85.  Returns `(table, next id, returned row id)`. -/
def upsert_funding_flow_enrich (table : List FFRow) (nextId : Nat)
    (recipient_organization_id : Nat) (fiscal_year : Option Int) (funding_channel : String)
    (amount_nok amount_original : Option ℚ) (currency_code : Option String)
    (notes : Option String) : List FFRow × Nat × Nat :=
  match find_existing_funding_flow_enrich table recipient_organization_id fiscal_year
      funding_channel amount_nok amount_original currency_code with
  | some fid =>
    (table.map (fun f => if f.id = fid then { f with notes := notes.or f.notes } else f),
      nextId, fid)
  | none =>
    (table ++ [{ id := nextId, donor_organization_id := none, donor_country_code := some "NO"
                 recipient_organization_id := some recipient_organization_id
                 recipient_name_raw := none, funding_channel := some funding_channel
                 amount_nok := amount_nok, amount_original := amount_original
                 currency_code := currency_code, fiscal_year := fiscal_year
                 period_start := none, period_end := none, confidence := 0.85
                 notes := notes }],
      nextId + 1, nextId)

/-- `find_existing_funding_flow` (`load_palestine_organizations.py`). -/
def find_existing_funding_flow_pal (table : List FFRow) (recipient_organization_id : Nat)
    (fiscal_year : Int) (funding_channel : String) (amount_nok : ℚ) : Option Nat :=
  (table.find? (fun f =>
    f.donor_country_code = some "NO" &&
    f.recipient_organization_id = some recipient_organization_id &&
    f.fiscal_year = some fiscal_year &&
    f.funding_channel = some funding_channel &&
    f.amount_nok = some amount_nok &&
    f.amount_original = none &&
    f.currency_code = none)).map (·.id)

/-- `upsert_historical_funding` (`load_palestine_organizations.py`): on a hit,
`UPDATE ... SET notes = COALESCE(notes, %s)` (fill-if-null); otherwise insert
with confidence 0.78. -/
def upsert_historical_funding (table : List FFRow) (nextId : Nat)
    (recipient_organization_id : Nat) (fiscal_year : Int) (amount_nok : ℚ)
    (funding_channel : String) (notes : String) : List FFRow × Nat × Nat :=
  match find_existing_funding_flow_pal table recipient_organization_id fiscal_year
      funding_channel amount_nok with
  | some fid =>
    (table.map (fun f => if f.id = fid then { f with notes := f.notes.or (some notes) } else f),
      nextId, fid)
  | none =>
    (table ++ [{ id := nextId, donor_organization_id := none, donor_country_code := some "NO"
                 recipient_organization_id := some recipient_organization_id
                 recipient_name_raw := none, funding_channel := some funding_channel
                 amount_nok := some amount_nok, amount_original := none
                 currency_code := none, fiscal_year := some fiscal_year
                 period_start := none, period_end := none, confidence := 0.78
                 notes := some notes }],
      nextId + 1, nextId)

/-! ## The fiscal-year rule as the spec words it -/

/-- The fiscal-year precedence as stated by the spec (year of the transaction
date, else year of the value date, else an explicit fiscal-year field); the
staged IATI row itself has no explicit fiscal-year column, so this definition
takes that hypothetical field as a third argument for comparison with the
code's `choose_fiscal_date`. -/
def spec_fiscal_year (transaction_date value_date : Option PyDate)
    (explicit_fiscal_year : Option Int) : Option Int :=
  (transaction_date.map (·.year)).or ((value_date.map (·.year)).or explicit_fiscal_year)

end NorConnect

namespace NorConnect

/-! ### Characterizing one loop iteration -/

theorem processRow_skip (source_system : String) (lookup : OrganizationLookup)
    (s : RunState) (row : StagedRow) (fid : Nat)
    (h : lookup_flow_by_ingest_key s.ingestKeys source_system row.event_key = some fid) :
    processRow source_system lookup s row =
      { s with processed := s.processed + 1, skipped_existing := s.skipped_existing + 1 } := by
  unfold processRow
  rw [h]

theorem sourceDocStep_frame (s : RunState) (row : StagedRow) :
    ((sourceDocStep s row).2).flows = s.flows ∧
    ((sourceDocStep s row).2).ingestKeys = s.ingestKeys ∧
    ((sourceDocStep s row).2).aliases = s.aliases ∧
    ((sourceDocStep s row).2).ffSourceLinks = s.ffSourceLinks ∧
    ((sourceDocStep s row).2).nextFlowId = s.nextFlowId ∧
    ((sourceDocStep s row).2).inserted = s.inserted ∧
    ((sourceDocStep s row).2).skipped_existing = s.skipped_existing ∧
    ((sourceDocStep s row).2).skipped_no_recipient = s.skipped_no_recipient ∧
    ((sourceDocStep s row).2).processed = s.processed ∧
    ((sourceDocStep s row).2).recipient_mapped_count = s.recipient_mapped_count ∧
    ((sourceDocStep s row).2).donor_mapped_count = s.donor_mapped_count := by
  unfold sourceDocStep ensure_source_document
  repeat' split
  all_goals simp

theorem ensure_then_lookup (keys : List IngestKey) (source_system event_key : String)
    (fid : Nat) :
    lookup_flow_by_ingest_key
      (ensure_funding_ingest_key keys source_system event_key fid)
      source_system event_key = some fid := by
  by_cases hany : keys.any
      (fun k => k.source_system = source_system && k.event_key = event_key) = true
  · unfold ensure_funding_ingest_key
    rw [if_pos hany]
    obtain ⟨k0, hk0mem, hk0⟩ := List.any_eq_true.mp hany
    unfold lookup_flow_by_ingest_key
    induction keys with
    | nil => simp at hk0mem
    | cons k t ih =>
      rw [List.map_cons]
      by_cases hk : (k.source_system = source_system && k.event_key = event_key) = true
      · rw [if_pos hk, List.find?_cons_of_pos _ (by simpa using hk)]
        simp
      · have hkf : (k.source_system = source_system && k.event_key = event_key) = false := by
          simpa using hk
        rw [if_neg hk]
        simp only [List.find?_cons, hkf]
        rcases List.mem_cons.mp hk0mem with h | h
        · subst h; exact absurd hk0 hk
        · refine ih ?_ h
          rw [List.any_cons] at hany
          rcases Bool.or_eq_true_iff.mp hany with hcase | hcase
          · exact absurd hcase hk
          · exact hcase
  · unfold ensure_funding_ingest_key
    rw [if_neg hany]
    unfold lookup_flow_by_ingest_key
    rw [List.find?_append]
    have h1 : keys.find?
        (fun k => k.source_system = source_system && k.event_key = event_key) = none := by
      rw [List.find?_eq_none]
      intro x hx hpx
      exact hany (List.any_eq_true.mpr ⟨x, hx, hpx⟩)
    rw [h1]
    simp

end NorConnect

namespace NorConnect

theorem processRest_no_amount (source_system : String) (lookup : OrganizationLookup)
    (s : RunState) (row : StagedRow) (docId : Nat) (rid : Option Nat)
    (mode : String) (raw : Option String) (h : row.value_amount = none) :
    (processRest source_system lookup s row docId rid mode raw).flows = s.flows ∧
    (processRest source_system lookup s row docId rid mode raw).ingestKeys = s.ingestKeys ∧
    (processRest source_system lookup s row docId rid mode raw).skipped_existing
      = s.skipped_existing ∧
    (processRest source_system lookup s row docId rid mode raw).inserted = s.inserted := by
  unfold processRest
  rw [h]
  dsimp only
  split <;> simp

theorem processRest_insert (source_system : String) (lookup : OrganizationLookup)
    (s : RunState) (row : StagedRow) (docId : Nat) (rid : Option Nat)
    (mode : String) (raw : Option String) (amt : ℚ) (h : row.value_amount = some amt) :
    ∃ flow : FFRow,
      (processRest source_system lookup s row docId rid mode raw).flows
        = s.flows ++ [flow] ∧
      flow.id = s.nextFlowId ∧
      flow.confidence = build_confidence rid.isSome
        (map_organization lookup (pyOrStr row.provider_org_ref row.reporting_org_ref)
          (pyOrStr row.provider_org_name row.reporting_org_name)).1.isSome
        (choose_fiscal_date row.transaction_date row.value_date).isSome
        (clean_text row.transaction_type_code).isSome ∧
      flow.fiscal_year = (choose_fiscal_date row.transaction_date row.value_date).map (·.year) ∧
      (processRest source_system lookup s row docId rid mode raw).ingestKeys =
        ensure_funding_ingest_key s.ingestKeys source_system row.event_key s.nextFlowId ∧
      (processRest source_system lookup s row docId rid mode raw).skipped_existing
        = s.skipped_existing ∧
      (processRest source_system lookup s row docId rid mode raw).inserted = s.inserted + 1 := by
  unfold processRest
  rw [h]
  dsimp only
  split
  next did heq =>
    refine ⟨_, rfl, rfl, ?_, rfl, rfl, rfl, rfl⟩
    simp [heq]
  next heq =>
    refine ⟨_, rfl, rfl, ?_, rfl, rfl, rfl, rfl⟩
    simp [heq]

end NorConnect

namespace NorConnect

theorem processRow_insert (source_system : String) (lookup : OrganizationLookup)
    (s : RunState) (row : StagedRow)
    (hkey : lookup_flow_by_ingest_key s.ingestKeys source_system row.event_key = none)
    (hins : insertable lookup row) :
    ∃ flow : FFRow,
      (processRow source_system lookup s row).flows = s.flows ++ [flow] ∧
      flow.confidence = build_confidence
        (map_organization lookup row.receiver_org_ref row.receiver_org_name).1.isSome
        (map_organization lookup (pyOrStr row.provider_org_ref row.reporting_org_ref)
          (pyOrStr row.provider_org_name row.reporting_org_name)).1.isSome
        (choose_fiscal_date row.transaction_date row.value_date).isSome
        (clean_text row.transaction_type_code).isSome ∧
      flow.fiscal_year = (choose_fiscal_date row.transaction_date row.value_date).map (·.year) ∧
      lookup_flow_by_ingest_key (processRow source_system lookup s row).ingestKeys
        source_system row.event_key = some flow.id ∧
      (processRow source_system lookup s row).skipped_existing = s.skipped_existing := by
  obtain ⟨hrec, hamt⟩ := hins
  obtain ⟨amt, hamt'⟩ : ∃ a, row.value_amount = some a := by
    cases hv : row.value_amount with
    | none => exact absurd hv hamt
    | some a => exact ⟨a, rfl⟩
  unfold processRow
  rw [hkey]
  dsimp only
  have hframe := sourceDocStep_frame { s with processed := s.processed + 1 } row
  rcases hrm : (map_organization lookup row.receiver_org_ref row.receiver_org_name).1
      with _ | rid
  · have hct : ∃ raw, clean_text row.receiver_org_name = some raw := by
      rcases hrec with h | h
      · exact absurd hrm h
      · cases hc : clean_text row.receiver_org_name with
        | none => exact absurd hc h
        | some raw => exact ⟨raw, rfl⟩
    obtain ⟨raw, hraw⟩ := hct
    rw [hraw]
    dsimp only
    obtain ⟨flow, hfl, hid, hconf, hfy, hkeys, hskip, hins'⟩ :=
      processRest_insert source_system lookup
        (sourceDocStep { s with processed := s.processed + 1 } row).2 row
        (sourceDocStep { s with processed := s.processed + 1 } row).1 none
        (map_organization lookup row.receiver_org_ref row.receiver_org_name).2
        (some raw) amt hamt'
    refine ⟨flow, ?_, ?_, hfy, ?_, ?_⟩
    · rw [hfl, hframe.1]
    · rw [hconf]
    · rw [hkeys, hframe.2.1, hid]
      exact ensure_then_lookup _ _ _ _
    · rw [hskip, hframe.2.2.2.2.2.2.1]
  · dsimp only
    set s2 : RunState :=
      { (sourceDocStep { s with processed := s.processed + 1 } row).2 with
        recipient_mapped_count :=
          (sourceDocStep { s with processed := s.processed + 1 } row).2.recipient_mapped_count + 1
        aliases := ensure_org_alias
          (sourceDocStep { s with processed := s.processed + 1 } row).2.aliases rid
          row.receiver_org_ref
          (some (sourceDocStep { s with processed := s.processed + 1 } row).1) } with hs2
    obtain ⟨flow, hfl, hid, hconf, hfy, hkeys, hskip, hins'⟩ :=
      processRest_insert source_system lookup s2 row
        (sourceDocStep { s with processed := s.processed + 1 } row).1 (some rid)
        (map_organization lookup row.receiver_org_ref row.receiver_org_name).2
        none amt hamt'
    refine ⟨flow, ?_, ?_, hfy, ?_, ?_⟩
    · rw [hfl]
      rw [show s2.flows = s.flows from by rw [hs2]; exact hframe.1]
    · rw [hconf]
    · rw [hkeys, hid]
      rw [show s2.ingestKeys = s.ingestKeys from by rw [hs2]; exact hframe.2.1]
      exact ensure_then_lookup _ _ _ _
    · rw [hskip]
      rw [show s2.skipped_existing = s.skipped_existing from by
        rw [hs2]; exact hframe.2.2.2.2.2.2.1]

end NorConnect

namespace NorConnect

theorem clamp_confidence_bounds (x : ℚ) :
    0.50 ≤ clamp_confidence x ∧ clamp_confidence x ≤ 0.95 := by
  unfold clamp_confidence
  constructor
  · exact le_max_left _ _
  · exact max_le (by norm_num) (min_le_left _ _)

theorem processRest_flows_mem (source_system : String) (lookup : OrganizationLookup)
    (s : RunState) (row : StagedRow) (docId : Nat) (rid : Option Nat)
    (mode : String) (raw : Option String) (f : FFRow)
    (hf : f ∈ (processRest source_system lookup s row docId rid mode raw).flows) :
    f ∈ s.flows ∨ ∃ r d hd ht, f.confidence = build_confidence r d hd ht := by
  cases hv : row.value_amount with
  | none =>
    rw [(processRest_no_amount source_system lookup s row docId rid mode raw hv).1] at hf
    exact Or.inl hf
  | some amt =>
    obtain ⟨flow, hfl, _, hconf, _, _, _, _⟩ :=
      processRest_insert source_system lookup s row docId rid mode raw amt hv
    rw [hfl] at hf
    rcases List.mem_append.mp hf with h | h
    · exact Or.inl h
    · rw [List.mem_singleton.mp h]
      exact Or.inr ⟨_, _, _, _, hconf⟩

theorem processRow_flows_mem (source_system : String) (lookup : OrganizationLookup)
    (s : RunState) (row : StagedRow) (f : FFRow)
    (hf : f ∈ (processRow source_system lookup s row).flows) :
    f ∈ s.flows ∨ ∃ r d hd ht, f.confidence = build_confidence r d hd ht := by
  have hframe := sourceDocStep_frame { s with processed := s.processed + 1 } row
  cases hk : lookup_flow_by_ingest_key s.ingestKeys source_system row.event_key with
  | some fid =>
    unfold processRow at hf
    rw [hk] at hf
    exact Or.inl hf
  | none =>
    unfold processRow at hf
    rw [hk] at hf
    dsimp only at hf
    cases hrm : (map_organization lookup row.receiver_org_ref row.receiver_org_name).1 with
    | none =>
      rw [hrm] at hf
      dsimp only at hf
      cases hct : clean_text row.receiver_org_name with
      | none =>
        rw [hct] at hf
        dsimp only at hf
        rw [hframe.1] at hf
        exact Or.inl hf
      | some raw =>
        rw [hct] at hf
        dsimp only at hf
        rcases processRest_flows_mem _ _ _ _ _ _ _ _ _ hf with h | h
        · rw [hframe.1] at h
          exact Or.inl h
        · exact Or.inr h
    | some rid =>
      rw [hrm] at hf
      dsimp only at hf
      rcases processRest_flows_mem _ _ _ _ _ _ _ _ _ hf with h | h
      · rw [hframe.1] at h
        exact Or.inl h
      · exact Or.inr h

end NorConnect

namespace NorConnect

/-! ### Year-window helper lemmas -/

theorem in_year_window_some (y : Int) (yf yt sy ey : Option Int) :
    in_year_window (some y) yf yt sy ey = true ↔
      (∀ a ∈ yf, a ≤ y) ∧ ∀ b ∈ yt, y ≤ b := by
  cases yf <;> cases yt <;> simp [in_year_window]

theorem in_year_window_none (yf yt sy ey : Option Int) :
    in_year_window none yf yt sy ey = true ↔
      (∀ a ∈ yf, a ≤ ey.getD 9999) ∧ ∀ b ∈ yt, sy.getD 0 ≤ b := by
  cases yf <;> cases yt <;> simp [in_year_window]

theorem in_year_window_some_ignores_interval (y : Int) (yf yt sy ey sy' ey' : Option Int) :
    in_year_window (some y) yf yt sy ey = in_year_window (some y) yf yt sy' ey' := rfl

/-- Concrete role row of the spec's windowing example: start 2010, end 2015. -/
def roleRow2010 : RoleRow :=
  { person_name := some "P", org_name := some "O", role_title := some "Chair"
    role_level := none, announced_on := none
    start_on := some ⟨2010, 1, 1⟩, end_on := some ⟨2015, 1, 1⟩ }

end NorConnect

namespace NorConnect

/-- C3: a row carrying a single anchor year is included iff
`year_from ≤ year ≤ year_to` (missing bounds unbounded); an interval row is
included iff its interval — sentinels 0/9999 for missing ends — overlaps
`[year_from, year_to]`; concretely a role with start 2010 / end 2015 is
included for [2012, 2020], excluded for [2016, 2020], and included when only
`year_from = 2011` is given. -/
theorem claim_C3_year_window :
    (∀ (y : Int) (yf yt sy ey : Option Int),
        in_year_window (some y) yf yt sy ey = true ↔
          (∀ a ∈ yf, a ≤ y) ∧ ∀ b ∈ yt, y ≤ b) ∧
    (∀ (yf yt sy ey : Option Int),
        in_year_window none yf yt sy ey = true ↔
          (∀ a ∈ yf, a ≤ ey.getD 9999) ∧ ∀ b ∈ yt, sy.getD 0 ≤ b) ∧
    filter_role_rows [roleRow2010] none (some 2012) (some 2020)
      = [(roleRow2010, some 2010)] ∧
    filter_role_rows [roleRow2010] none (some 2016) (some 2020) = [] ∧
    filter_role_rows [roleRow2010] none (some 2011) none = [(roleRow2010, some 2010)] :=
  ⟨in_year_window_some, in_year_window_none, by decide, by decide, by decide⟩

/-- C10 (implicit): a present anchor year fully decides inclusion — the
interval bounds are ignored in that case — and `filter_funding_rows` passes the
row's `fiscal_year` as that anchor, so a funding row with non-null
`fiscal_year` is kept iff `year_from ≤ fiscal_year ≤ year_to` (and the text
filter matches), regardless of its period interval. -/
theorem claim_C10_anchor_decides :
    (∀ (y : Int) (yf yt sy ey sy' ey' : Option Int),
        in_year_window (some y) yf yt sy ey = in_year_window (some y) yf yt sy' ey') ∧
    (∀ (y : Int) (yf yt sy ey : Option Int),
        in_year_window (some y) yf yt sy ey = true ↔
          (∀ a ∈ yf, a ≤ y) ∧ ∀ b ∈ yt, y ≤ b) ∧
    (∀ (rows : List FundingQueryRow) (q : Option String) (yf yt : Option Int)
        (r : FundingQueryRow),
        r ∈ filter_funding_rows rows q yf yt ↔
          r ∈ rows ∧
          in_year_window r.fiscal_year yf yt (r.period_start.map (·.year))
            (r.period_end.map (·.year)) = true ∧
          matches_query [r.org_name, r.recipient_name_raw, r.funding_channel] q = true) := by
  refine ⟨fun y yf yt sy ey sy' ey' => in_year_window_some_ignores_interval y yf yt sy ey sy' ey',
    in_year_window_some, ?_⟩
  intro rows q yf yt r
  simp [filter_funding_rows, funding_year_bounds, List.mem_filter, and_assoc]

end NorConnect

namespace NorConnect

/-- C6: both name normalizers are idempotent (and, being plain functions of
their input, deterministic and pure): `normalize(normalize(x)) = normalize(x)`
for every string. -/
theorem claim_C6_normalize_idempotent :
    (∀ x : String, normalize_name_iati (normalize_name_iati x) = normalize_name_iati x) ∧
    (∀ x : String, normalize_name_enrich (normalize_name_enrich x) = normalize_name_enrich x) :=
  ⟨fun x => congrArg (fun l => (⟨l⟩ : String)) (normIatiL_idem x.data),
   fun x => congrArg (fun l => (⟨l⟩ : String)) (normEnrichL_idem x.data)⟩

end NorConnect

namespace NorConnect

theorem substrAux_refl (xs : List Char) : substrAux xs xs = true := by
  cases xs with
  | nil => rfl
  | cons c t =>
    unfold substrAux
    have : List.isPrefixOf (c :: t) (c :: t) = true := by
      induction (c :: t) with
      | nil => rfl
      | cons a r ih => simp [List.isPrefixOf, ih]
    simp [this]

/-- A two-character string, spelled as an explicit character list so that the
kernel can evaluate the normalizers on it. -/
def abStr : String := ⟨['a', 'b']⟩

/-- C7 counterexample: `"ab"` is non-empty, but its token set is empty (tokens
must have length ≥ 3), so `similarity "ab" "ab" = 0.75 ≠ 1.0`. -/
theorem claim_C7_counterexample :
    abStr ≠ "" ∧ similarity abStr abStr = 0.75 ∧ similarity abStr abStr ≠ 1 := by
  have htok : token_set abStr = ∅ := by decide
  have hnorm : normalize_name_enrich abStr ≠ "" := by decide
  have hval : similarity abStr abStr = 0.75 := by
    unfold similarity
    rw [if_neg (by simp [hnorm])]
    dsimp only
    rw [seqRatio_self hnorm, if_pos (Or.inl htok), if_pos (Or.inl (substrAux_refl _))]
    norm_num
  refine ⟨by decide, hval, ?_⟩
  rw [hval]
  norm_num

/-- C7 amended: the scorer is reflexive on every string with a non-empty token
set — `score(a, a) = 1.0` whenever `token_set a ≠ ∅` (for non-empty strings
without tokens the self-score is 0.75, as the counterexample shows). -/
theorem claim_C7_amended (a : String) (ht : token_set a ≠ ∅) : similarity a a = 1 := by
  have hn : normalize_name_enrich a ≠ "" := by
    intro h
    apply ht
    unfold token_set
    rw [h]
    rfl
  unfold similarity
  rw [if_neg (by simp [hn])]
  dsimp only
  rw [seqRatio_self hn, if_neg (by simp [ht]), if_pos (Or.inl (substrAux_refl _))]
  rw [Finset.inter_self, Finset.union_self]
  have hcard : ((token_set a).card : ℚ) ≠ 0 := by
    rw [Nat.cast_ne_zero]
    exact fun hc => ht (Finset.card_eq_zero.mp hc)
  rw [div_self hcard]
  norm_num

/-- A token-bearing string for the reflexivity witness. -/
def unicefStr : String := ⟨['u', 'n', 'i', 'c', 'e', 'f']⟩

theorem claim_C7_witness : similarity unicefStr unicefStr = 1 :=
  claim_C7_amended unicefStr (by decide)

end NorConnect

namespace NorConnect

/-- A funding row matching the enrich composite key, with non-null notes. -/
def notesFlow : FFRow :=
  { id := 7, donor_organization_id := none, donor_country_code := some "NO"
    recipient_organization_id := some 3, recipient_name_raw := none
    funding_channel := some "Norad grant", amount_nok := some 100
    amount_original := none, currency_code := none, fiscal_year := some 2020
    period_start := none, period_end := none, confidence := 1, notes := some "old" }

/-- A funding row matching the palestine composite key, with non-null notes. -/
def palFlow : FFRow :=
  { id := 11, donor_organization_id := none, donor_country_code := some "NO"
    recipient_organization_id := some 3, recipient_name_raw := none
    funding_channel := some "Hist", amount_nok := some 100
    amount_original := none, currency_code := none, fiscal_year := some 2020
    period_start := none, period_end := none, confidence := 1, notes := some "keep" }

/-- C4 counterexample: `upsert_funding_flow` in `enrich_norad_oecd.py` runs
`SET notes = COALESCE(%s, notes)`, so a composite-key hit with a non-null new
notes value REPLACES an existing non-null notes value. -/
theorem claim_C4_counterexample :
    notesFlow.notes = some "old" ∧
    ((upsert_funding_flow_enrich [notesFlow] 8 3 (some 2020) "Norad grant" (some 100) none none
        (some "new")).1.map (·.notes)) = [some "new"] := by
  exact ⟨rfl, by decide⟩

/-- C4 amended: a composite-key hit creates no new row and touches only the
notes column in both scripts; but the fill-if-null direction holds only in
`load_palestine_organizations.py` (`COALESCE(notes, %s)`), while
`enrich_norad_oecd.py` (`COALESCE(%s, notes)`) overwrites existing notes
whenever the new notes value is non-null. -/
theorem claim_C4_amended :
    (∀ (table : List FFRow) (nextId rid : Nat) (fy : Option Int) (ch : String)
        (an ao : Option ℚ) (cc : Option String) (nts : Option String) (fid : Nat),
        find_existing_funding_flow_enrich table rid fy ch an ao cc = some fid →
        (upsert_funding_flow_enrich table nextId rid fy ch an ao cc nts).1 =
          table.map (fun f => if f.id = fid then { f with notes := nts.or f.notes } else f) ∧
        (upsert_funding_flow_enrich table nextId rid fy ch an ao cc nts).1.length
          = table.length ∧
        (upsert_funding_flow_enrich table nextId rid fy ch an ao cc nts).2.1 = nextId) ∧
    (∀ (table : List FFRow) (nextId rid : Nat) (fy : Int) (an : ℚ) (ch nts : String)
        (fid : Nat),
        find_existing_funding_flow_pal table rid fy ch an = some fid →
        (upsert_historical_funding table nextId rid fy an ch nts).1 =
          table.map (fun f =>
            if f.id = fid then { f with notes := f.notes.or (some nts) } else f) ∧
        ∀ f ∈ table, f.id = fid → f.notes ≠ none →
          f ∈ (upsert_historical_funding table nextId rid fy an ch nts).1) := by
  constructor
  · intro table nextId rid fy ch an ao cc nts fid h
    unfold upsert_funding_flow_enrich
    rw [h]
    exact ⟨rfl, by simp, rfl⟩
  · intro table nextId rid fy an ch nts fid h
    have hmap : (upsert_historical_funding table nextId rid fy an ch nts).1 =
        table.map (fun f =>
          if f.id = fid then { f with notes := f.notes.or (some nts) } else f) := by
      unfold upsert_historical_funding
      rw [h]
    refine ⟨hmap, ?_⟩
    intro f hf hid hnn
    have hfix : (fun f : FFRow =>
        if f.id = fid then { f with notes := f.notes.or (some nts) } else f) f = f := by
      dsimp only
      rw [if_pos hid]
      cases hn : f.notes with
      | none => exact absurd hn hnn
      | some x =>
        have hor : (Option.some x).or (some nts) = f.notes := by rw [hn]; rfl
        rw [hor]
    rw [hmap, ← hfix]
    exact List.mem_map_of_mem _ hf

theorem claim_C4_witness :
    ((upsert_funding_flow_enrich [notesFlow] 8 3 (some 2020) "Norad grant" (some 100) none none
        (some "new")).1 =
      [notesFlow].map (fun f =>
        if f.id = 7 then { f with notes := (some "new").or f.notes } else f)) ∧
    palFlow ∈ (upsert_historical_funding [palFlow] 9 3 2020 100 "Hist" "new").1 := by
  constructor
  · exact (claim_C4_amended.1 [notesFlow] 8 3 (some 2020) "Norad grant" (some 100) none none
      (some "new") 7 (by decide)).1
  · exact (claim_C4_amended.2 [palFlow] 9 3 2020 100 "Hist" "new" 11 (by decide)).2
      palFlow (List.mem_singleton_self _) rfl (by decide)

end NorConnect

namespace NorConnect

theorem sigOf_curatedEdge (key : String) (idx : Nat) (item : CuratedBinding) :
    sigOf (curatedEdge key idx item) = curatedSig key item := rfl

theorem source_kind_datasetEdge (key : String) (row : DrillRoleRow) :
    (datasetEdge key row).source_kind = "dataset" := rfl

theorem source_kind_curatedEdge (key : String) (idx : Nat) (item : CuratedBinding) :
    (curatedEdge key idx item).source_kind = "curated" := rfl

theorem curatedPhase_mem {sigs : List Sig} {personName : String → String}
    {q : Option String} {yf yt : Option Int} {key : String} {items : List CuratedBinding}
    {e : DrillEdge} (he : e ∈ curatedPhase sigs personName q yf yt key items) :
    e.source_kind = "curated" ∧ sigOf e ∉ sigs := by
  unfold curatedPhase at he
  obtain ⟨p, _, hp⟩ := List.mem_filterMap.mp he
  dsimp only at hp
  split at hp
  · exact absurd hp (by simp)
  · split at hp
    · exact absurd hp (by simp)
    · split at hp
      · exact absurd hp (by simp)
      · next hsig =>
        obtain rfl := Option.some.inj hp
        exact ⟨rfl, by rwa [sigOf_curatedEdge]⟩

/-- C5 amended: in the assembled role/binding edge list, a dataset edge and a
curated edge never carry the same signature — every dataset role edge registers
its signature and every curated binding whose signature is registered is
dropped.  (Two identical dataset rows, or two curated bindings with equal
signatures, can still each produce an edge, as the counterexample shows.) -/
theorem claim_C5_amended (roleRows : List (String × DrillRoleRow))
    (curated : List (String × List CuratedBinding)) (personName : String → String)
    (q : Option String) (yf yt : Option Int) (e e' : DrillEdge)
    (he : e ∈ drilldownRoleEdges roleRows curated personName q yf yt)
    (he' : e' ∈ drilldownRoleEdges roleRows curated personName q yf yt)
    (hkd : e.source_kind = "dataset") (hkc : e'.source_kind = "curated") :
    sigOf e ≠ sigOf e' := by
  unfold drilldownRoleEdges at he he'
  dsimp only at he he'
  rcases List.mem_append.mp he with h | h
  · rcases List.mem_append.mp he' with h' | h'
    · obtain ⟨p, _, hp⟩ := List.mem_map.mp h'
      rw [← hp] at hkc
      exact absurd hkc (by simp [source_kind_datasetEdge])
    · obtain ⟨pr, _, hpr⟩ := List.mem_flatMap.mp h'
      have hcur := curatedPhase_mem hpr
      obtain ⟨p, hpmem, hp⟩ := List.mem_map.mp h
      have hsig : sigOf e ∈ roleRows.map (fun p => sigOf (datasetEdge p.1 p.2)) := by
        rw [← hp]
        exact List.mem_map_of_mem _ hpmem
      intro heq
      rw [heq] at hsig
      exact hcur.2 hsig
  · obtain ⟨pr, _, hpr⟩ := List.mem_flatMap.mp h
    have hcur := curatedPhase_mem hpr
    rw [hcur.1] at hkd
    exact absurd hkd (by decide)

/-- Dataset role rows for the duplicate-signature counterexample. -/
def drRow1 : DrillRoleRow :=
  { id := 1, org_id := 10, org_name := ⟨['A', 'c', 'm', 'e']⟩
    role_title := some ⟨['C', 'h', 'a', 'i', 'r']⟩
    start_on := some ⟨2000, 1, 1⟩, end_on := none }

def drRow2 : DrillRoleRow :=
  { id := 2, org_id := 10, org_name := ⟨['A', 'c', 'm', 'e']⟩
    role_title := some ⟨['C', 'h', 'a', 'i', 'r']⟩
    start_on := some ⟨2000, 1, 1⟩, end_on := none }

/-- C5 counterexample: two distinct dataset role rows recording the same
(person, institution, role, start, end) fact both emit edges — the signature
dedup only suppresses curated duplicates, so the same fact appears as two
edges in the output. -/
theorem claim_C5_counterexample :
    sigOf (datasetEdge ⟨['p']⟩ drRow1) = sigOf (datasetEdge ⟨['p']⟩ drRow2) ∧
    datasetEdge ⟨['p']⟩ drRow1 ≠ datasetEdge ⟨['p']⟩ drRow2 ∧
    drilldownRoleEdges [(⟨['p']⟩, drRow1), (⟨['p']⟩, drRow2)] [] (fun _ => ⟨['P']⟩)
        none none none
      = [datasetEdge ⟨['p']⟩ drRow1, datasetEdge ⟨['p']⟩ drRow2] := by
  refine ⟨by decide, by decide, rfl⟩

/-- Curated binding used for the C5 witness. -/
def cb1 : CuratedBinding :=
  { institution_name := some ⟨['B', 'e', 't', 'a']⟩, institution_type := none
    role_title := some ⟨['A', 'd', 'v', 'i', 's', 'o', 'r']⟩, relation_type := none
    start_year := none, end_year := none, outside_dataset := none, notes := none }

theorem claim_C5_witness :
    sigOf (datasetEdge ⟨['p']⟩ drRow1) ≠ sigOf (curatedEdge ⟨['p']⟩ 0 cb1) :=
  claim_C5_amended [(⟨['p']⟩, drRow1)] [(⟨['p']⟩, [cb1])] (fun _ => ⟨['P']⟩) none none none
    (datasetEdge ⟨['p']⟩ drRow1) (curatedEdge ⟨['p']⟩ 0 cb1)
    (by decide) (by decide) rfl rfl

end NorConnect

namespace NorConnect

/-- An existing alias row mapping `"X"` to organization 1. -/
def aliasRowX : AliasRow :=
  { organization_id := 1, alias_text := ⟨['X']⟩, source_system := "iati_ref"
    source_document_id := none }

/-- C9 counterexample: the alias insert conflicts on `(organization_id, alias)`,
not on the alias string alone, so registering an alias already mapped to
organization 1 on behalf of organization 2 inserts a second row — the alias
now maps to two entities. -/
theorem claim_C9_counterexample :
    ((ensure_org_alias [aliasRowX] 2 (some ⟨['X']⟩) none).filter
        (fun r => r.alias_text = ⟨['X']⟩)).map (·.organization_id) = [1, 2] := by
  decide

/-- C9 amended: alias registration is idempotent per `(organization_id, alias)`
pair — re-registering the same pair is a no-op, existing rows are never
modified or reassigned (the old table is a prefix of the new one), and a
cleaned alias already present for the same organization inserts nothing; but
the same alias string may be registered for a second organization (see the
counterexample). -/
theorem claim_C9_amended :
    (∀ (t : List AliasRow) (org : Nat) (a : Option String) (d : Option Nat),
        ensure_org_alias (ensure_org_alias t org a d) org a d = ensure_org_alias t org a d) ∧
    (∀ (t : List AliasRow) (org : Nat) (a : Option String) (d : Option Nat),
        t <+: ensure_org_alias t org a d) ∧
    (∀ (t : List AliasRow) (org : Nat) (a : Option String) (d : Option Nat) (al : String),
        clean_text a = some al →
        (∃ r ∈ t, r.organization_id = org ∧ r.alias_text = al) →
        ensure_org_alias t org a d = t) := by
  have hins : ∀ (t : List AliasRow) (org : Nat) (a : Option String) (d : Option Nat),
      ensure_org_alias t org a d = t ∨
      ∃ al, clean_text a = some al ∧
        (t.any (fun r => r.organization_id = org && r.alias_text = al)) = false ∧
        ensure_org_alias t org a d = t ++
          [{ organization_id := org, alias_text := al, source_system := "iati_ref"
             source_document_id := d }] := by
    intro t org a d
    unfold ensure_org_alias
    cases hc : clean_text a with
    | none => exact Or.inl rfl
    | some al =>
      dsimp only
      by_cases hany : (t.any (fun r => r.organization_id = org && r.alias_text = al)) = true
      · rw [if_pos hany]; exact Or.inl rfl
      · rw [if_neg hany]
        exact Or.inr ⟨al, rfl, by simpa using hany, rfl⟩
  refine ⟨?_, ?_, ?_⟩
  · intro t org a d
    rcases hins t org a d with h | ⟨al, hc, hany, h⟩
    · rw [h, h]
    · rw [h]
      unfold ensure_org_alias
      rw [hc]
      dsimp only
      have hcond :
          ((t ++
              [({ organization_id := org, alias_text := al, source_system := "iati_ref",
                  source_document_id := d } : AliasRow)]).any
            (fun r => r.organization_id = org && r.alias_text = al)) = true := by
        rw [List.any_append]
        simp
      rw [if_pos hcond]
  · intro t org a d
    rcases hins t org a d with h | ⟨al, _, _, h⟩
    · rw [h]
    · rw [h]; exact List.prefix_append _ _
  · intro t org a d al hc ⟨r, hr, hro, hra⟩
    unfold ensure_org_alias
    rw [hc]
    dsimp only
    rw [if_pos (List.any_eq_true.mpr ⟨r, hr, by simp [hro, hra]⟩)]

end NorConnect

namespace NorConnect

/-- The empty run state (fresh counters, empty tables). -/
def rs0 : RunState :=
  { flows := [], ingestKeys := [], sourceDocs := [], aliases := [], ffSourceLinks := []
    docCache := [], nextFlowId := 1, nextDocId := 1, processed := 0, inserted := 0
    skipped_existing := 0, skipped_no_recipient := 0, recipient_mapped_count := 0
    donor_mapped_count := 0 }

/-- A run state whose ingest-key table already holds `("iati_registry", "E1")`. -/
def rs1 : RunState :=
  { rs0 with ingestKeys :=
      [{ source_system := "iati_registry", event_key := "E1", funding_flow_id := 7 }] }

def lookup0 : OrganizationLookup := { by_name := [], by_ref := [] }

/-- A materializable staged transaction: unresolved recipient name, an amount,
no dates. -/
def row0 : StagedRow :=
  { package_name := none, publisher_iati_id := none, resource_url := "u"
    activity_iati_identifier := none, transaction_type_code := none
    transaction_date := none, value_date := none, value_amount := some 5
    value_currency := none, receiver_org_ref := none
    receiver_org_name := some ⟨['A', 'c', 'm', 'e']⟩
    provider_org_ref := none, provider_org_name := none, reporting_org_ref := none
    reporting_org_name := none, event_key := "E1" }

/-- Like `row0` but with both dates present. -/
def row8 : StagedRow :=
  { row0 with transaction_date := some ⟨2021, 3, 4⟩, value_date := some ⟨2020, 1, 1⟩
              event_key := "E8" }

/-- C1: processing a staged transaction whose `(source_system, event_key)` is
already in `funding_flow_ingest_key` is a pure no-op apart from the `processed`
and `skipped_existing` counters (no FundingFlow insert, no other state change);
and processing the same materializable row twice inserts exactly one
FundingFlow and counts exactly one duplicate skip. -/
theorem claim_C1_ingest_idempotent :
    (∀ (source_system : String) (lookup : OrganizationLookup) (s : RunState)
        (row : StagedRow) (fid : Nat),
        lookup_flow_by_ingest_key s.ingestKeys source_system row.event_key = some fid →
        processRow source_system lookup s row =
          { s with processed := s.processed + 1
                   skipped_existing := s.skipped_existing + 1 }) ∧
    (∀ (source_system : String) (lookup : OrganizationLookup) (s : RunState)
        (row : StagedRow),
        lookup_flow_by_ingest_key s.ingestKeys source_system row.event_key = none →
        insertable lookup row →
        (processRows source_system lookup s [row, row]).flows.length
          = s.flows.length + 1 ∧
        (processRows source_system lookup s [row, row]).skipped_existing
          = s.skipped_existing + 1) := by
  constructor
  · exact fun src lookup s row fid h => processRow_skip src lookup s row fid h
  · intro src lookup s row hkey hins
    obtain ⟨flow, hfl, _, _, hlk, hskip⟩ := processRow_insert src lookup s row hkey hins
    have hrows : processRows src lookup s [row, row]
        = processRow src lookup (processRow src lookup s row) row := rfl
    rw [hrows, processRow_skip src lookup _ row flow.id hlk]
    constructor
    · simp [hfl]
    · simp [hskip]

theorem claim_C1_witness :
    (processRow "iati_registry" lookup0 rs1 row0 =
      { rs1 with processed := rs1.processed + 1
                 skipped_existing := rs1.skipped_existing + 1 }) ∧
    (processRows "iati_registry" lookup0 rs0 [row0, row0]).flows.length
      = rs0.flows.length + 1 ∧
    (processRows "iati_registry" lookup0 rs0 [row0, row0]).skipped_existing
      = rs0.skipped_existing + 1 :=
  ⟨claim_C1_ingest_idempotent.1 "iati_registry" lookup0 rs1 row0 7 (by decide),
   (claim_C1_ingest_idempotent.2 "iati_registry" lookup0 rs0 row0 (by decide) (by decide)).1,
   (claim_C1_ingest_idempotent.2 "iati_registry" lookup0 rs0 row0 (by decide) (by decide)).2⟩

/-- C2: `build_confidence` is exactly the spec's formula — base 0.68 plus 0.16
for a resolved recipient, 0.08 for a resolved donor, 0.04 for a known date and
0.03 for a known type, clamped to [0.50, 0.95] — and every FundingFlow row the
normalizer writes carries a confidence in [0.50, 0.95]. -/
theorem claim_C2_confidence :
    (∀ r d hd ht, build_confidence r d hd ht =
        max 0.50 (min 0.95 (0.68 + (if r then (0.16 : ℚ) else 0)
          + (if d then (0.08 : ℚ) else 0) + (if hd then (0.04 : ℚ) else 0)
          + (if ht then (0.03 : ℚ) else 0)))) ∧
    (∀ (source_system : String) (lookup : OrganizationLookup) (s : RunState)
        (row : StagedRow) (f : FFRow),
        f ∈ (processRow source_system lookup s row).flows →
        f ∈ s.flows ∨ (0.50 ≤ f.confidence ∧ f.confidence ≤ 0.95)) := by
  constructor
  · intro r d hd ht
    rcases r <;> rcases d <;> rcases hd <;> rcases ht <;>
      norm_num [build_confidence, clamp_confidence]
  · intro src lookup s row f hf
    rcases processRow_flows_mem src lookup s row f hf with h | ⟨r, d, hd, ht, hc⟩
    · exact Or.inl h
    · right
      rw [hc]
      unfold build_confidence
      dsimp only
      exact clamp_confidence_bounds _

/-- A throwaway default row for `List.getD`. -/
def dfltFlow : FFRow :=
  { id := 0, donor_organization_id := none, donor_country_code := none
    recipient_organization_id := none, recipient_name_raw := none, funding_channel := none
    amount_nok := none, amount_original := none, currency_code := none, fiscal_year := none
    period_start := none, period_end := none, confidence := 0, notes := none }

theorem claim_C2_witness :
    0.50 ≤ ((processRow "iati_registry" lookup0 rs0 row0).flows.getD 0 dfltFlow).confidence ∧
    ((processRow "iati_registry" lookup0 rs0 row0).flows.getD 0 dfltFlow).confidence ≤ 0.95 := by
  obtain ⟨flow, hfl, _, _, _, _⟩ :=
    processRow_insert "iati_registry" lookup0 rs0 row0 (by decide) (by decide)
  have hmem : (processRow "iati_registry" lookup0 rs0 row0).flows.getD 0 dfltFlow
      ∈ (processRow "iati_registry" lookup0 rs0 row0).flows := by
    rw [hfl]
    show (rs0.flows ++ [flow]).getD 0 dfltFlow ∈ rs0.flows ++ [flow]
    simp [rs0]
  rcases claim_C2_confidence.2 "iati_registry" lookup0 rs0 row0 _ hmem with h | h
  · exact absurd h (by simp [rs0])
  · exact h

/-- C8 counterexample: the staged IATI row has no explicit fiscal-year column
and the code never falls back to one — with both dates missing the stored
fiscal_year is null, whereas the claim's third fallback would store the
explicit fiscal year (here 2020). -/
theorem claim_C8_counterexample :
    (processRow "iati_registry" lookup0 rs0 row0).flows.map (·.fiscal_year) = [none] ∧
    spec_fiscal_year none none (some 2020) = some 2020 ∧
    spec_fiscal_year row0.transaction_date row0.value_date (some 2020)
      ≠ (none : Option Int) := by
  refine ⟨?_, rfl, by decide⟩
  obtain ⟨flow, hfl, _, hfy, _, _⟩ :=
    processRow_insert "iati_registry" lookup0 rs0 row0 (by decide) (by decide)
  rw [hfl]
  show List.map _ (rs0.flows ++ [flow]) = [none]
  simp [rs0, hfy]
  rw [show row0.transaction_date = none from rfl, show row0.value_date = none from rfl]
  rfl

/-- C8 amended: for every materialized transaction the stored fiscal_year is
the year of the transaction date if present, else the year of the value date,
else null — there is no explicit fiscal-year fallback. -/
theorem claim_C8_amended (source_system : String) (lookup : OrganizationLookup)
    (s : RunState) (row : StagedRow)
    (hkey : lookup_flow_by_ingest_key s.ingestKeys source_system row.event_key = none)
    (hins : insertable lookup row) :
    ∃ flow : FFRow,
      (processRow source_system lookup s row).flows = s.flows ++ [flow] ∧
      flow.fiscal_year =
        (row.transaction_date.map (·.year)).or (row.value_date.map (·.year)) := by
  obtain ⟨flow, hfl, _, hfy, _, _⟩ := processRow_insert source_system lookup s row hkey hins
  refine ⟨flow, hfl, ?_⟩
  rw [hfy]
  unfold choose_fiscal_date
  cases row.transaction_date <;> cases row.value_date <;> rfl

theorem claim_C8_witness :
    (processRow "iati_registry" lookup0 rs0 row8).flows.map (·.fiscal_year)
      = [(row8.transaction_date.map (·.year)).or (row8.value_date.map (·.year))] := by
  obtain ⟨flow, hfl, hfy⟩ :=
    claim_C8_amended "iati_registry" lookup0 rs0 row8 (by decide) (by decide)
  rw [hfl]
  show List.map _ (rs0.flows ++ [flow]) = _
  simp [rs0, hfy]

end NorConnect

namespace NorConnect

theorem claim_C9_witness :
    ensure_org_alias (ensure_org_alias [aliasRowX] 2 (some ⟨['X']⟩) none) 2
        (some ⟨['X']⟩) none
      = ensure_org_alias [aliasRowX] 2 (some ⟨['X']⟩) none ∧
    ensure_org_alias [aliasRowX] 1 (some ⟨['X']⟩) none = [aliasRowX] :=
  ⟨claim_C9_amended.1 [aliasRowX] 2 (some ⟨['X']⟩) none,
   claim_C9_amended.2.2 [aliasRowX] 1 (some ⟨['X']⟩) none ⟨['X']⟩ (by decide)
     ⟨aliasRowX, List.mem_singleton_self _, rfl, rfl⟩⟩

end NorConnect
